import Mathlib

/-!
Shallow embedding of the hivewrite translation hub core, written from the
TypeScript sources under src/lib.  JS ISO-8601 timestamps are modelled as
Nat clock ticks (their ordering is the string ordering); JS `number`
arithmetic that stays on integers (counts, word sums) is exact Nat
arithmetic, while the one genuinely fractional computation,
`Math.round((completed / totalFiles) * 100)`, is modelled as IEEE-754
binary64: each operation rounds its exact result to 53 significant bits,
nearest, ties to even (see `Dyadic` below); the `Record<string, T>`
objects are association lists in insertion order, the order JS preserves
for string keys.
-/

namespace HiveWrite

/-! ### Data model, from the type declarations of the repository (src types file) -/

/-- File status, from the FileStatus union type. -/
inductive FileStatus where
  | notStarted
  | inProgress
  | complete
deriving DecidableEq, Repr

/-- Text direction of a language. -/
inductive Direction where
  | ltr
  | rtl
deriving DecidableEq, Repr

/-- Per-file metadata, from TranslationFileMetadata. -/
structure TranslationFileMetadata where
  status : FileStatus
  lastUpdated : Option Nat
  lastContributor : Option String
  lastCommitSha : Option String
  prNumber : Option Nat
  prUrl : Option String
  wordCount : Nat
  machineTranslated : Bool
  humanReviewed : Bool
deriving DecidableEq, Repr

/-- Aggregate statistics, from TranslationStats. -/
structure TranslationStats where
  totalFiles : Nat
  completed : Nat
  inProgress : Nat
  notStarted : Nat
  percentComplete : Nat
  totalWords : Nat
  translatedWords : Nat
  contributors : List String
deriving DecidableEq, Repr

/-- Provenance block, from TranslationMeta. -/
structure TranslationMeta where
  machineTranslationService : String
  machineTranslationDate : Nat
  sourceCommitSha : String
  notes : String
deriving DecidableEq, Repr

/-- The files mapping of a metadata document: a JS object keyed by filename,
modelled as an association list in insertion order. -/
abbrev FilesMap := List (String × TranslationFileMetadata)

/-- The whole metadata document, from TranslationMetadata. -/
structure TranslationMetadata where
  version : String
  language : String
  languageName : String
  direction : Direction
  project : String
  coordinator : String
  initialized : Nat
  lastUpdated : Nat
  files : FilesMap
  stats : TranslationStats
  meta : TranslationMeta
deriving DecidableEq, Repr

/-! ### JS object primitives for the files mapping -/

/-- Read `m[k]` of a JS object. -/
def getEntry (m : FilesMap) (k : String) : Option TranslationFileMetadata :=
  (m.find? (fun p => p.1 = k)).map (fun p => p.2)

/-- Write `m[k] = v` on a JS object: replace in place when the key exists,
append otherwise. -/
def setEntry (m : FilesMap) (k : String) (v : TranslationFileMetadata) : FilesMap :=
  if (m.find? (fun p => p.1 = k)).isSome then
    m.map (fun p => if p.1 = k then (k, v) else p)
  else m ++ [(k, v)]

/-! ### IEEE-754 binary64 model for the percentComplete pipeline

`(completed / totalFiles) * 100` runs on JS doubles, so each of the two
operations rounds its exact result to a 53-bit significand (round to
nearest, ties to even).  A nonnegative double is represented as a dyadic
pair `sig * 2^exp`; overflow and subnormal underflow are not modelled (for
`0 ≤ completed ≤ totalFiles` they would need a mapping of more than 2^1022
files), and the integer operands are taken exact (every feasible count is
far below 2^53, the bound up to which JS integers are exact doubles). -/

/-- A nonnegative binary64 value as a dyadic pair: the value is
sig * 2^exp.  After rounding, sig is 0 or lies in [2^52, 2^53]. -/
structure Dyadic where
  sig : Nat
  exp : Int
deriving DecidableEq, Repr

/-- Round A/B (B > 0) to the nearest integer, ties to even: the
significand-rounding step of IEEE round-to-nearest. -/
def roundSigTiesEven (A B : Nat) : Nat :=
  let q := A / B
  let r := A % B
  if 2 * r < B then q
  else if B < 2 * r then q + 1
  else if q % 2 = 0 then q else q + 1

/-- Binade search upward: the smallest k (within fuel steps) with
a < 2^53 * 2^k * b, for a value a/b that is at least 2^52. -/
def findExpUp (a b : Nat) : Nat → Nat → Nat
  | 0, k => k
  | fuel + 1, k => if a < 2 ^ 53 * 2 ^ k * b then k else findExpUp a b fuel (k + 1)

/-- Binade search downward: the smallest k (within fuel steps) with
2^52 * b ≤ a * 2^k, for a positive value a/b below 2^52. -/
def findExpDown (a b : Nat) : Nat → Nat → Nat
  | 0, k => k
  | fuel + 1, k => if 2 ^ 52 * b ≤ a * 2 ^ k then k else findExpDown a b fuel (k + 1)

/-- Round the exact rational a/b (b > 0) to the nearest binary64 value,
ties to even: scale a/b into the significand range [2^52, 2^53) by a power
of two and round the scaled value to an integer.  The fuel of each binade
search is a crude but sufficient bound on the distance to the binade. -/
def roundToDouble (a b : Nat) : Dyadic :=
  if a = 0 then { sig := 0, exp := 0 }
  else if 2 ^ 52 * b ≤ a then
    let k := findExpUp a b (a + 1) 0
    { sig := roundSigTiesEven a (2 ^ k * b), exp := (k : Int) }
  else
    let k := findExpDown a b (b + 53) 0
    { sig := roundSigTiesEven (a * 2 ^ k) b, exp := -(k : Int) }

/-- JS double division of two nonnegative integer operands: the correctly
rounded value of the exact quotient. -/
def jsDiv (a b : Nat) : Dyadic := roundToDouble a b

/-- JS double multiplication of a double by an integer constant: the exact
product sig * m at the same exponent, rounded back to 53 bits. -/
def jsMul (x : Dyadic) (m : Nat) : Dyadic :=
  let r := roundToDouble (x.sig * m) 1
  { sig := r.sig, exp := x.exp + r.exp }

/-- JS Math.round on a nonnegative double: per the ECMAScript spec, the
integral value closest to the argument's exact value, half toward positive
infinity, i.e. the floor of value + 1/2 computed exactly on the dyadic. -/
def mathRoundDouble (x : Dyadic) : Nat :=
  match x.exp with
  | .ofNat k => x.sig * 2 ^ k
  | .negSucc km1 => (2 * x.sig + 2 ^ (km1 + 1)) / 2 ^ (km1 + 2)

/-! ### src/lib/translation-metadata.ts -/

/-- Round half up on an exact rational: the reference rounding against
which the spec states percentComplete (JS Math.round applied to an exact
value). -/
def mathRound (x : ℚ) : ℤ := ⌊x + 1 / 2⌋

/-- One step of the contributors Set construction of calculateStats: the
source guards with `if (f.lastContributor)`, and JS truthiness is false
for null and for the empty string, so an empty-string contributor is
dropped; otherwise add to the Set, keeping first-insertion order and no
duplicates (JS Set semantics). -/
def addContributor (acc : List String) (f : TranslationFileMetadata) : List String :=
  match f.lastContributor with
  | some c => if c = "" then acc else if c ∈ acc then acc else acc ++ [c]
  | none => acc

/-- calculateStats, from src/lib/translation-metadata.ts (calculateStats):
pure aggregation over the files mapping.  percentComplete follows the
binary64 pipeline of the source: divide, multiply by 100, Math.round. -/
def calculateStats (files : FilesMap) : TranslationStats :=
  let fileArray := files.map (fun p => p.2)
  let totalFiles := fileArray.length
  let completed := (fileArray.filter (fun f => f.status = .complete)).length
  let inProgress := (fileArray.filter (fun f => f.status = .inProgress)).length
  let notStarted := (fileArray.filter (fun f => f.status = .notStarted)).length
  let percentComplete :=
    if totalFiles > 0 then
      mathRoundDouble (jsMul (jsDiv completed totalFiles) 100)
    else 0
  let totalWords := fileArray.foldl (fun sum f => sum + f.wordCount) 0
  let translatedWords :=
    (fileArray.filter (fun f => f.status = .complete)).foldl
      (fun sum f => sum + f.wordCount) 0
  let contributors := fileArray.foldl addContributor []
  { totalFiles := totalFiles
    completed := completed
    inProgress := inProgress
    notStarted := notStarted
    percentComplete := percentComplete
    totalWords := totalWords
    translatedWords := translatedWords
    contributors := contributors }

/-- The file entry created for every enumerated file at initialization time
(the literal inside createInitialTranslationMetadata). -/
def initialFileEntry : TranslationFileMetadata :=
  { status := .notStarted
    lastUpdated := none
    lastContributor := none
    lastCommitSha := none
    prNumber := none
    prUrl := none
    wordCount := 0
    machineTranslated := true
    humanReviewed := false }

/-- createInitialTranslationMetadata, from src/lib/translation-metadata.ts.
`now` is the single new Date() value taken at the top of the function. -/
def createInitialTranslationMetadata (now : Nat) (projectSlug : String)
    (languageCode : String) (languageName : String) (direction : Direction)
    (coordinator : String) (files : List String) (sourceCommitSha : String) :
    TranslationMetadata :=
  let filesMetadata := files.foldl (fun m filename => setEntry m filename initialFileEntry) []
  let stats : TranslationStats :=
    { totalFiles := files.length
      completed := 0
      inProgress := 0
      notStarted := files.length
      percentComplete := 0
      totalWords := 0
      translatedWords := 0
      contributors := [] }
  { version := "1.0"
    language := languageCode
    languageName := languageName
    direction := direction
    project := projectSlug
    coordinator := coordinator
    initialized := now
    lastUpdated := now
    files := filesMetadata
    stats := stats
    meta :=
      { machineTranslationService := "DeepL"
        machineTranslationDate := now
        sourceCommitSha := sourceCommitSha
        notes := "Initialized with machine translation" } }

/-- A Partial update of a file entry, from Partial of TranslationFileMetadata:
each field is present (some) or absent (none) in the update object. -/
structure FileMetadataUpdate where
  status : Option FileStatus := none
  lastUpdated : Option (Option Nat) := none
  lastContributor : Option (Option String) := none
  lastCommitSha : Option (Option String) := none
  prNumber : Option (Option Nat) := none
  prUrl : Option (Option String) := none
  wordCount : Option Nat := none
  machineTranslated : Option Bool := none
  humanReviewed : Option Bool := none
deriving DecidableEq, Repr

/-- The JS object spread of an update over an entry. -/
def applyUpdate (f : TranslationFileMetadata) (u : FileMetadataUpdate) :
    TranslationFileMetadata :=
  { status := u.status.getD f.status
    lastUpdated := u.lastUpdated.getD f.lastUpdated
    lastContributor := u.lastContributor.getD f.lastContributor
    lastCommitSha := u.lastCommitSha.getD f.lastCommitSha
    prNumber := u.prNumber.getD f.prNumber
    prUrl := u.prUrl.getD f.prUrl
    wordCount := u.wordCount.getD f.wordCount
    machineTranslated := u.machineTranslated.getD f.machineTranslated
    humanReviewed := u.humanReviewed.getD f.humanReviewed }

/-- The default entry synthesized when the named file is absent from the
mapping (the if-block of updateFileMetadata; machineTranslated is false
there, unlike at initialization). -/
def synthesizedFileEntry : TranslationFileMetadata :=
  { status := .notStarted
    lastUpdated := none
    lastContributor := none
    lastCommitSha := none
    prNumber := none
    prUrl := none
    wordCount := 0
    machineTranslated := false
    humanReviewed := false }

/-- updateFileMetadata, from src/lib/translation-metadata.ts: merge the
update into the existing (or synthesized) entry, stamp the entry and the
document with `now` (the new Date() of the call), and recompute stats from
the complete mapping. -/
def updateFileMetadata (metadata : TranslationMetadata) (filename : String)
    (updates : FileMetadataUpdate) (now : Nat) : TranslationMetadata :=
  let base := (getEntry metadata.files filename).getD synthesizedFileEntry
  let entry := { applyUpdate base updates with lastUpdated := some now }
  let updatedFiles := setEntry metadata.files filename entry
  { metadata with
    files := updatedFiles
    stats := calculateStats updatedFiles
    lastUpdated := now }

/-- A file entry with status complete (concrete input used by witnesses). -/
def exampleCompleteEntry : TranslationFileMetadata :=
  { status := .complete
    lastUpdated := none
    lastContributor := none
    lastCommitSha := none
    prNumber := none
    prUrl := none
    wordCount := 0
    machineTranslated := false
    humanReviewed := false }

/-- A three-file mapping with exactly one complete file. -/
def exampleThreeFiles : FilesMap :=
  [("a.md", exampleCompleteEntry), ("b.md", initialFileEntry), ("c.md", initialFileEntry)]

/-- A file entry carrying a contributor (concrete input used by witnesses). -/
def exampleContributorEntry : TranslationFileMetadata :=
  { status := .complete
    lastUpdated := some 5
    lastContributor := some "alice"
    lastCommitSha := some "c1"
    prNumber := some 7
    prUrl := some "u"
    wordCount := 40
    machineTranslated := true
    humanReviewed := true }

/-- A file entry whose lastContributor is present but is the empty string:
non-null, yet falsy to the JS truthiness guard of calculateStats. -/
def exampleEmptyContributorEntry : TranslationFileMetadata :=
  { status := .complete
    lastUpdated := some 5
    lastContributor := some ""
    lastCommitSha := none
    prNumber := none
    prUrl := none
    wordCount := 10
    machineTranslated := false
    humanReviewed := false }

/-- A forty-file mapping with exactly 23 complete files: the double product
(23/40)*100 evaluates to 57.49999999999999289…, strictly below the half,
where the exact ratio 57.5 sits on it. -/
def exampleFortyFiles : FilesMap :=
  (List.range 40).map (fun i =>
    (toString i ++ ".md", if i < 23 then exampleCompleteEntry else initialFileEntry))

/-- The word-count pass at the end of initializeLanguage
(src/lib/file-processing.ts): for each enumerated source file, the content
fetch and countWords are remote I/O, modelled by an oracle value per file
(none when the fetch failed, the caught continue branch); when the file has
an entry, its wordCount is assigned and stats.totalWords is incremented in
place. -/
def wordCountStep (m : TranslationMetadata) (entry : String × Option Nat) :
    TranslationMetadata :=
  match entry.2 with
  | none => m
  | some wc =>
    if (getEntry m.files entry.1).isSome then
      { m with
        files := m.files.map (fun p =>
          if p.1 = entry.1 then (p.1, { p.2 with wordCount := wc }) else p)
        stats := { m.stats with totalWords := m.stats.totalWords + wc } }
    else m

/-- The whole word-count pass: the for-loop over the enumerated source
files. -/
def wordCountPass (m : TranslationMetadata) (sourceFiles : List (String × Option Nat)) :
    TranslationMetadata :=
  sourceFiles.foldl wordCountStep m

/-! ### src/lib/fork-management.ts -/

/-- The four-way sync classification, from the SyncStatus union type. -/
inductive SyncStatus where
  | behind
  | ahead
  | diverged
  | identical
deriving DecidableEq, Repr

/-- One commit of the comparison response, as reshaped by
checkForkSyncStatus. -/
structure CommitInfo where
  sha : String
  message : String
  author : String
  date : String
deriving DecidableEq, Repr

/-- The part of the compare-commits response data that checkForkSyncStatus
reads; behind_by, ahead_by and commits may be absent from the platform
response (the || 0 and || [] defaults). -/
structure CompareData where
  behind_by : Option Nat
  ahead_by : Option Nat
  commits : Option (List CommitInfo)
deriving DecidableEq, Repr

/-- SyncStatusResponse, from the types file. -/
structure SyncStatusResponse where
  status : SyncStatus
  behindBy : Nat
  aheadBy : Nat
  commits : List CommitInfo
deriving DecidableEq, Repr

/-- checkForkSyncStatus, from src/lib/fork-management.ts: the comparison
network call is I/O, so its response data is the parameter; the function
classifies (behindBy, aheadBy) into the four-way status and passes the
commit list through (already reshaped to CommitInfo). -/
def checkForkSyncStatus (comparison : CompareData) : SyncStatusResponse :=
  let behindBy := comparison.behind_by.getD 0
  let aheadBy := comparison.ahead_by.getD 0
  let status : SyncStatus :=
    if behindBy = 0 ∧ aheadBy = 0 then .identical
    else if behindBy > 0 ∧ aheadBy = 0 then .behind
    else if behindBy = 0 ∧ aheadBy > 0 then .ahead
    else .diverged
  { status := status
    behindBy := behindBy
    aheadBy := aheadBy
    commits := comparison.commits.getD [] }

/-! ### src/lib/validation.ts: sanitizeFilename

Strings are handled at character granularity here (a Lean String is its
character list), because the proofs about the markdown splitter below need
list structure; Str is the character-list view of a JS string. -/

abbrev Str := List Char

/-- JS String.prototype.trim, on the character list. -/
def strLtrim (s : Str) : Str := s.dropWhile Char.isWhitespace

/-- Right trim: drop trailing whitespace. -/
def strRtrim (s : Str) : Str := (s.reverse.dropWhile Char.isWhitespace).reverse

/-- trim: both ends. -/
def strTrim (s : Str) : Str := strRtrim (strLtrim s)

/-- JS String.prototype.includes: needle occurs contiguously in haystack. -/
def strIncludes (haystack needle : Str) : Bool :=
  match haystack with
  | [] => needle.isEmpty
  | _ :: rest => needle.isPrefixOf haystack || strIncludes rest needle

/-- Node path.basename (posix): ignore trailing slashes, then keep what
follows the last slash. -/
def pathBasename (p : Str) : Str :=
  let trimmed := (p.reverse.dropWhile (fun c => c = '/')).reverse
  (trimmed.reverse.takeWhile (fun c => c ≠ '/')).reverse

/-- sanitizeFilename, from src/lib/validation.ts: thrown errors are the
error branch of Except. -/
def sanitizeFilename (filename : Str) : Except Str Str :=
  let normalized := pathBasename filename
  if normalized ≠ filename then
    .error ("Invalid filename: path traversal detected".toList)
  else if strIncludes normalized ['.', '.'] ∨ '/' ∈ normalized ∨ '\\' ∈ normalized then
    .error ("Invalid filename: contains prohibited characters".toList)
  else if normalized = [] ∨ strTrim normalized = [] then
    .error ("Invalid filename: cannot be empty".toList)
  else .ok normalized

/-! ### src/lib/validation.ts: checkRateLimit -/

/-- One entry of the in-memory rate-limit Map. -/
structure RateLimitEntry where
  count : Nat
  resetAt : Nat
deriving DecidableEq, Repr

/-- The module-level rateLimitStore Map, as a function from identifier to
entry. -/
def RateLimitStore := String → Option RateLimitEntry

/-- The store before any call. -/
def emptyRateLimitStore : RateLimitStore := fun _ => none

/-- Map.set / Map.delete on the store. -/
def storeSet (store : RateLimitStore) (k : String) (v : Option RateLimitEntry) :
    RateLimitStore :=
  fun k2 => if k2 = k then v else store k2

/-- RateLimitResult, from src/lib/validation.ts; remaining is an Int because
limit - count is negative when limit = 0. -/
structure RateLimitResult where
  success : Bool
  limit : Nat
  remaining : Int
  reset : Nat
deriving DecidableEq, Repr

/-- checkRateLimit, from src/lib/validation.ts, with Date.now() as the
explicit now parameter and the module-level Map passed and returned. -/
def checkRateLimit (store : RateLimitStore) (identifier : String) (limit : Nat)
    (windowMs : Nat) (now : Nat) : RateLimitResult × RateLimitStore :=
  let existing := store identifier
  let store1 :=
    match existing with
    | some e => if e.resetAt < now then storeSet store identifier none else store
    | none => store
  match existing with
  | none =>
    ({ success := true, limit := limit, remaining := (limit : Int) - 1
       reset := now + windowMs },
     storeSet store1 identifier (some { count := 1, resetAt := now + windowMs }))
  | some e =>
    if e.resetAt < now then
      ({ success := true, limit := limit, remaining := (limit : Int) - 1
         reset := now + windowMs },
       storeSet store1 identifier (some { count := 1, resetAt := now + windowMs }))
    else
      let newCount := e.count + 1
      let store2 := storeSet store1 identifier (some { count := newCount, resetAt := e.resetAt })
      if newCount > limit then
        ({ success := false, limit := limit, remaining := 0, reset := e.resetAt }, store2)
      else
        ({ success := true, limit := limit, remaining := (limit : Int) - (newCount : Int)
           reset := e.resetAt }, store2)

/-- A sequence of checkRateLimit calls for one identifier at the given
times, threading the store. -/
def runRateLimit (store : RateLimitStore) (identifier : String) (limit windowMs : Nat) :
    List Nat → List RateLimitResult × RateLimitStore
  | [] => ([], store)
  | t :: ts =>
    let r := checkRateLimit store identifier limit windowMs t
    let rest := runRateLimit r.2 identifier limit windowMs ts
    (r.1 :: rest.1, rest.2)

/-! ### src/lib/github.ts -/

/-- Outcome of one underlying hosting-API call: a success value, or a thrown
error carrying errorObj.status (0 when the thrown object has no status,
mirroring errorObj.status || 0). -/
inductive CallOutcome (α : Type) where
  | ok (v : α)
  | err (status : Nat)
deriving DecidableEq, Repr

/-- GitHubClient.isRetryableStatus. -/
def isRetryableStatus (status : Nat) : Bool :=
  status ∈ [500, 502, 503, 504]

/-- The user-facing hints of GitHubClient.handleError. -/
def userMessage (status : Nat) : String :=
  if status = 401 then "Your session expired. Please log in again."
  else if status = 403 then "API rate limit exceeded. Please try again in a few minutes."
  else if status = 404 then "File or repository not found. Please sync your fork."
  else if status = 409 then "This file was updated by someone else. Please refresh."
  else if status = 422 then "Invalid file content. Please check your changes."
  else if status = 500 then "GitHub is experiencing issues. Your work is saved locally."
  else "An error occurred. Please try again."

/-- The typed GitHubError. -/
structure GitHubError where
  status : Nat
  message : String
deriving DecidableEq, Repr

/-- GitHubClient.handleError: errorObj.status || 500, then the hint table. -/
def handleError (status : Nat) : GitHubError :=
  let s := if status = 0 then 500 else status
  { status := s, message := userMessage s }

/-- Result of GitHubClient.request: the success value, the typed thrown
GitHubError, or the unreachable throw after the loop. -/
inductive RequestResult (α : Type) where
  | ok (v : α)
  | ghError (e : GitHubError)
  | unexpected
deriving DecidableEq, Repr

/-- The retry loop of GitHubClient.request.  The underlying operation is a
function from the attempt index to that call's outcome; `remaining` counts
the loop iterations still allowed (maxAttempts - attempt), so the loop
guard attempt < maxAttempts is remaining > 0.  Returns the result and the
number of underlying calls made. -/
def requestLoop (op : Nat → CallOutcome α) (maxAttempts : Nat) :
    Nat → Nat → RequestResult α × Nat
  | attempt, 0 => (.unexpected, attempt)
  | attempt, remaining + 1 =>
    match op attempt with
    | .ok v => (.ok v, attempt + 1)
    | .err status =>
      if isRetryableStatus status ∧ attempt ≠ maxAttempts - 1 then
        requestLoop op maxAttempts (attempt + 1) remaining
      else (.ghError (handleError status), attempt + 1)

/-- GitHubClient.request with an attempt budget (retries when passed, else
the client's maxRetries). -/
def request (op : Nat → CallOutcome α) (maxAttempts : Nat) : RequestResult α × Nat :=
  requestLoop op maxAttempts 0 maxAttempts

/-- options.maxRetries || 3: the default attempt budget of the client. -/
def defaultMaxRetries : Nat := 3

/-! ### src/lib/translation.ts: TranslationService.translateMarkdown -/

/-- The code-fence marker. -/
def fenceMarker : Str := "```".toList

/-- line.trim().startsWith of the fence marker. -/
def isFenceLine (line : Str) : Bool := fenceMarker.isPrefixOf (strTrim line)

/-- markdown.split of the newline character: JS String.prototype.split. -/
def splitOnNewline : Str → List Str
  | [] => [[]]
  | c :: rest =>
    let r := splitOnNewline rest
    if c = '\n' then [] :: r
    else
      match r with
      | [] => [[c]]
      | l :: ls => (c :: l) :: ls

/-- The loop state of splitMarkdownSections: the sections pushed so far, the
section under construction, and whether the loop is inside a code fence. -/
structure SplitState where
  sections : List Str
  currentSection : Str
  inCodeBlock : Bool
deriving DecidableEq, Repr

/-- The `if (currentSection) push` step before a fence line. -/
def pushCurrent (st : SplitState) : SplitState :=
  if st.currentSection.isEmpty then st
  else { st with sections := st.sections ++ [st.currentSection], currentSection := [] }

/-- One iteration of the line loop of splitMarkdownSections. -/
def processLine (st : SplitState) (line : Str) : SplitState :=
  if isFenceLine line then
    let st1 := pushCurrent st
    let inCode := !st.inCodeBlock
    let cur := st1.currentSection ++ line ++ ['\n']
    if inCode then { sections := st1.sections, currentSection := cur, inCodeBlock := true }
    else { sections := st1.sections ++ [cur], currentSection := [], inCodeBlock := false }
  else if st.inCodeBlock then
    { st with currentSection := st.currentSection ++ line ++ ['\n'] }
  else
    let cur := st.currentSection ++ line ++ ['\n']
    if (strTrim line).isEmpty || ['#'].isPrefixOf (strTrim line) then
      if (strTrim cur).isEmpty then { st with currentSection := cur }
      else { st with sections := st.sections ++ [cur], currentSection := [] }
    else { st with currentSection := cur }

/-- splitMarkdownSections, from src/lib/translation.ts: split into lines,
run the line loop, then push any remaining content. -/
def splitMarkdownSections (markdown : Str) : List Str :=
  let lines := splitOnNewline markdown
  let final := lines.foldl processLine { sections := [], currentSection := [], inCodeBlock := false }
  if (strTrim final.currentSection).isEmpty then final.sections
  else final.sections ++ [final.currentSection]

/-- An ASCII letter, the [a-zA-Z] class of the skip regex. -/
def isAsciiLetter (c : Char) : Bool :=
  ('a' ≤ c ∧ c ≤ 'z') ∨ ('A' ≤ c ∧ c ≤ 'Z')

/-- The test of the regex [a-zA-Z]{3,}: three consecutive ASCII letters
occur somewhere. -/
def hasThreeConsecutiveLetters : Str → Bool
  | c1 :: c2 :: c3 :: rest =>
    (isAsciiLetter c1 && isAsciiLetter c2 && isAsciiLetter c3)
      || hasThreeConsecutiveLetters (c2 :: c3 :: rest)
  | _ => false

/-- TranslationService.shouldSkipTranslation, from src/lib/translation.ts. -/
def shouldSkipTranslation (content : Str) : Bool :=
  let trimmed := strTrim content
  if fenceMarker.isPrefixOf trimmed || strIncludes trimmed fenceMarker then true
  else if ("http://".toList).isPrefixOf trimmed || ("https://".toList).isPrefixOf trimmed then
    true
  else if trimmed.isEmpty then true
  else if !hasThreeConsecutiveLetters trimmed then true
  else false

/-- TranslationService.translateMarkdown, from src/lib/translation.ts: the
per-section DeepL call is I/O, so the segment translation is the function
parameter; sections are translated independently (skippable ones passed
through) and rejoined with the empty separator. -/
def translateMarkdown (translateText : Str → Str) (markdown : Str) : Str :=
  let sections := splitMarkdownSections markdown
  let translatedSections :=
    sections.map (fun s =>
      if shouldSkipTranslation s then s else translateText s)
  translatedSections.flatten

/-- Lines rejoined with newline separators: the inverse of splitOnNewline,
used to state which markdown documents contain a given code block. -/
def joinLines : List Str → Str
  | [] => []
  | [l] => l
  | l :: ls => l ++ '\n' :: joinLines ls

/-- A block of lines as it is accumulated by the splitter: every line with a
trailing newline. -/
def blockText (ls : List Str) : Str :=
  (ls.map (fun l => l ++ ['\n'])).flatten


attribute [ext] TranslationStats TranslationFileMetadata TranslationMetadata

/-! ### Helper lemmas: the files mapping primitives -/

theorem getEntry_nil (k : String) : getEntry [] k = none := rfl

theorem getEntry_cons_self (k : String) (v : TranslationFileMetadata) (m : FilesMap) :
    getEntry ((k, v) :: m) k = some v := by
  simp [getEntry, List.find?_cons]

theorem getEntry_cons_ne (p : String × TranslationFileMetadata) (m : FilesMap)
    (k : String) (h : p.1 ≠ k) : getEntry (p :: m) k = getEntry m k := by
  simp [getEntry, List.find?_cons, h]

theorem getEntry_append (m1 m2 : FilesMap) (k : String) :
    getEntry (m1 ++ m2) k = (getEntry m1 k).or (getEntry m2 k) := by
  simp only [getEntry, List.find?_append]
  cases m1.find? (fun p => p.1 = k) <;> simp

theorem setEntry_of_getEntry_none (m : FilesMap) (k : String)
    (v : TranslationFileMetadata) (h : getEntry m k = none) :
    setEntry m k v = m ++ [(k, v)] := by
  have hf : m.find? (fun p => p.1 = k) = none := by
    simpa [getEntry] using h
  simp [setEntry, hf]

theorem snd_eq_of_mem_setEntry (m : FilesMap) (k : String)
    (v : TranslationFileMetadata) (p : String × TranslationFileMetadata)
    (hp : p ∈ setEntry m k v) (hk : p.1 = k) : p.2 = v := by
  unfold setEntry at hp
  by_cases hf : (m.find? (fun q => q.1 = k)).isSome
  · rw [if_pos hf] at hp
    obtain ⟨q, hq, hqe⟩ := List.mem_map.mp hp
    by_cases hq1 : q.1 = k
    · rw [if_pos hq1] at hqe
      rw [← hqe]
    · rw [if_neg hq1] at hqe
      exact absurd (hqe ▸ hk) hq1
  · rw [if_neg hf] at hp
    rcases List.mem_append.mp hp with hmem | hmem
    · exfalso
      rw [Option.not_isSome_iff_eq_none, List.find?_eq_none] at hf
      exact absurd (by simpa using hk) (by simpa using hf p hmem)
    · simp only [List.mem_singleton] at hmem
      rw [hmem]

theorem keys_setEntry (m : FilesMap) (k : String) (v : TranslationFileMetadata)
    (h : (getEntry m k).isSome) :
    (setEntry m k v).map (fun p => p.1) = m.map (fun p => p.1) := by
  have hf : (m.find? (fun q => q.1 = k)).isSome := by
    simpa [getEntry] using h
  simp only [setEntry, if_pos hf, List.map_map]
  refine List.map_congr_left ?_
  intro p hp
  by_cases hp1 : p.1 = k
  · simp [Function.comp_def, hp1]
  · simp [Function.comp_def, hp1]

/-! ### Helper lemmas: the fields of calculateStats -/

theorem calcStats_totalFiles (files : FilesMap) :
    (calculateStats files).totalFiles = files.length := by
  simp [calculateStats]

theorem calcStats_completed (files : FilesMap) :
    (calculateStats files).completed
      = files.countP (fun p => p.2.status = FileStatus.complete) := by
  simp [calculateStats, List.countP_eq_length_filter, List.filter_map, Function.comp_def]

theorem calcStats_inProgress (files : FilesMap) :
    (calculateStats files).inProgress
      = files.countP (fun p => p.2.status = FileStatus.inProgress) := by
  simp [calculateStats, List.countP_eq_length_filter, List.filter_map, Function.comp_def]

theorem calcStats_notStarted (files : FilesMap) :
    (calculateStats files).notStarted
      = files.countP (fun p => p.2.status = FileStatus.notStarted) := by
  simp [calculateStats, List.countP_eq_length_filter, List.filter_map, Function.comp_def]

theorem foldl_add_wordCount (l : List TranslationFileMetadata) (n : Nat) :
    l.foldl (fun sum f => sum + f.wordCount) n = n + (l.map (fun f => f.wordCount)).sum := by
  induction l generalizing n with
  | nil => simp
  | cons a l ih => simp [List.foldl_cons, ih]; omega

theorem calcStats_totalWords (files : FilesMap) :
    (calculateStats files).totalWords = (files.map (fun p => p.2.wordCount)).sum := by
  simp [calculateStats, foldl_add_wordCount, List.map_map, Function.comp_def]

theorem calcStats_translatedWords (files : FilesMap) :
    (calculateStats files).translatedWords
      = ((files.filter (fun p => p.2.status = FileStatus.complete)).map
          (fun p => p.2.wordCount)).sum := by
  simp [calculateStats, foldl_add_wordCount, List.filter_map, List.map_map,
    Function.comp_def]

theorem status_filter_partition (l : List TranslationFileMetadata) :
    (l.filter (fun f => f.status = FileStatus.complete)).length
      + (l.filter (fun f => f.status = FileStatus.inProgress)).length
      + (l.filter (fun f => f.status = FileStatus.notStarted)).length = l.length := by
  induction l with
  | nil => simp
  | cons a l ih =>
    cases h : a.status <;> simp [List.filter_cons, h] <;> omega

theorem calcStats_counts_sum (files : FilesMap) :
    (calculateStats files).completed + (calculateStats files).inProgress
      + (calculateStats files).notStarted = (calculateStats files).totalFiles := by
  simpa [calculateStats] using status_filter_partition (files.map (fun p => p.2))

theorem mem_foldl_addContributor (l : List TranslationFileMetadata)
    (acc : List String) (c : String) :
    c ∈ l.foldl addContributor acc ↔
      c ∈ acc ∨ (c ≠ "" ∧ some c ∈ l.map (fun f => f.lastContributor)) := by
  induction l generalizing acc with
  | nil => simp
  | cons a l ih =>
    simp only [List.foldl_cons, List.map_cons, List.mem_cons, ih]
    cases h : a.lastContributor with
    | none =>
      simp only [addContributor, h]
      have h1 : ¬ (some c = none) := by simp
      tauto
    | some d =>
      by_cases hd0 : d = ""
      · subst hd0
        simp only [addContributor, h, if_pos rfl]
        have h1 : c ≠ "" → ¬ (some c = some "") := by
          intro hne hce
          exact hne (by simpa using hce)
        tauto
      · by_cases hd : d ∈ acc
        · simp only [addContributor, h, if_neg hd0, if_pos hd]
          have hcd : (some c = some d) → c ∈ acc := by
            intro hce
            have hcd2 : c = d := by simpa using hce
            exact hcd2 ▸ hd
          tauto
        · simp only [addContributor, h, if_neg hd0, if_neg hd, List.mem_append,
            List.mem_singleton]
          have h1 : (c = d) ↔ (some c = some d) := by simp
          have h2 : c = d → c ≠ "" := by
            rintro rfl
            exact hd0
          tauto

theorem nodup_foldl_addContributor (l : List TranslationFileMetadata)
    (acc : List String) (h : acc.Nodup) : (l.foldl addContributor acc).Nodup := by
  induction l generalizing acc with
  | nil => simpa using h
  | cons a l ih =>
    refine ih _ ?_
    cases hc : a.lastContributor with
    | none => simpa [addContributor, hc] using h
    | some d =>
      by_cases hd0 : d = ""
      · simpa [addContributor, hc, hd0] using h
      · by_cases hd : d ∈ acc
        · simpa [addContributor, hc, hd0, hd] using h
        · simp [addContributor, hc, hd0, hd, List.nodup_append, h]

theorem calcStats_contributors (files : FilesMap) :
    (calculateStats files).contributors
      = (files.map (fun p => p.2)).foldl addContributor [] := by
  simp [calculateStats]

theorem calcStats_contributors_nodup (files : FilesMap) :
    (calculateStats files).contributors.Nodup := by
  rw [calcStats_contributors]
  exact nodup_foldl_addContributor _ _ List.nodup_nil

theorem calcStats_contributors_mem (files : FilesMap) (c : String) :
    c ∈ (calculateStats files).contributors
      ↔ c ≠ "" ∧ ∃ p ∈ files, p.2.lastContributor = some c := by
  rw [calcStats_contributors]
  simp [mem_foldl_addContributor, List.mem_map, eq_comm]

theorem mathRound_natCast_div (c t : ℕ) (ht : 0 < t) :
    (mathRound ((c : ℚ) / (t : ℚ) * 100)).toNat = (200 * c + t) / (2 * t) := by
  have htq : ((t : ℚ)) ≠ 0 := by positivity
  have h1 : ((c : ℚ) / (t : ℚ) * 100) + 1 / 2
      = ((200 * c + t : ℕ) : ℚ) / ((2 * t : ℕ) : ℚ) := by
    push_cast
    field_simp
    ring
  rw [mathRound, h1, Int.floor_toNat, Nat.floor_div_nat, Nat.floor_natCast]

theorem calcStats_percentComplete_nil : (calculateStats []).percentComplete = 0 := rfl

theorem calcStats_percentComplete_eq (files : FilesMap) :
    (calculateStats files).percentComplete
      = (if (calculateStats files).totalFiles > 0 then
          mathRoundDouble (jsMul (jsDiv (calculateStats files).completed
            (calculateStats files).totalFiles) 100)
        else 0) := rfl

theorem jsPercent_zero (t : Nat) : mathRoundDouble (jsMul (jsDiv 0 t) 100) = 0 := rfl

/-! ### Claim C2 -/

/-- C2 (amended): calculateStats matches the reference aggregation:
totalFiles is the number of entries, the three status counters count
exactly the entries of each status and sum to totalFiles, totalWords and
translatedWords are the word-count sums over all entries and over the
complete entries, and contributors is the duplicate-free set of the
truthy lastContributor values — non-null AND non-empty, because the
source guards the Set insertion with `if (f.lastContributor)` and JS
truthiness is false for the empty string. -/
theorem calculateStats_reference (files : FilesMap) :
    (calculateStats files).totalFiles = files.length
    ∧ (calculateStats files).completed
        = files.countP (fun p => p.2.status = FileStatus.complete)
    ∧ (calculateStats files).inProgress
        = files.countP (fun p => p.2.status = FileStatus.inProgress)
    ∧ (calculateStats files).notStarted
        = files.countP (fun p => p.2.status = FileStatus.notStarted)
    ∧ (calculateStats files).completed + (calculateStats files).inProgress
        + (calculateStats files).notStarted = (calculateStats files).totalFiles
    ∧ (calculateStats files).totalWords = (files.map (fun p => p.2.wordCount)).sum
    ∧ (calculateStats files).translatedWords
        = ((files.filter (fun p => p.2.status = FileStatus.complete)).map
            (fun p => p.2.wordCount)).sum
    ∧ (calculateStats files).contributors.Nodup
    ∧ ∀ c : String,
        c ∈ (calculateStats files).contributors
          ↔ c ≠ "" ∧ ∃ p ∈ files, p.2.lastContributor = some c :=
  ⟨calcStats_totalFiles files, calcStats_completed files, calcStats_inProgress files,
    calcStats_notStarted files, calcStats_counts_sum files, calcStats_totalWords files,
    calcStats_translatedWords files, calcStats_contributors_nodup files,
    calcStats_contributors_mem files⟩

/-- Counterexample to the original C2: at a mapping whose single entry has
lastContributor = "" (non-null but falsy), the claimed biconditional
"c ∈ contributors ↔ some non-null lastContributor equals c" fails: the
truthiness guard drops the empty string, so contributors is empty. -/
theorem calculateStats_contributors_counterexample :
    ¬ (∀ c : String,
        c ∈ (calculateStats [("a.md", exampleEmptyContributorEntry)]).contributors
          ↔ ∃ p ∈ [("a.md", exampleEmptyContributorEntry)],
              p.2.lastContributor = some c) := by
  intro h
  have h1 : ("" : String) ∈
      (calculateStats [("a.md", exampleEmptyContributorEntry)]).contributors :=
    (h "").mpr ⟨("a.md", exampleEmptyContributorEntry), by simp, rfl⟩
  have h2 : (calculateStats [("a.md", exampleEmptyContributorEntry)]).contributors
      = [] := by decide
  rw [h2] at h1
  simp at h1

/-- Witness for C2 at concrete mappings: an ordinary contributor survives,
an empty-string contributor is dropped. -/
theorem calculateStats_reference_witness :
    (calculateStats [("a.md", exampleContributorEntry), ("b.md", initialFileEntry)]).totalFiles = 2
    ∧ (calculateStats [("a.md", exampleContributorEntry), ("b.md", initialFileEntry)]).totalWords = 40
    ∧ ((calculateStats [("a.md", exampleContributorEntry), ("b.md", initialFileEntry)]).contributors
        = ["alice"])
    ∧ ((calculateStats [("a.md", exampleEmptyContributorEntry)]).contributors = []) := by
  have h := calculateStats_reference [("a.md", exampleContributorEntry), ("b.md", initialFileEntry)]
  refine ⟨?_, ?_, ?_, ?_⟩
  · rw [h.1]
    decide
  · rw [h.2.2.2.2.2.1]
    decide
  · rw [calcStats_contributors]
    decide
  · rw [calcStats_contributors]
    decide

/-! ### Claim C3 -/

/-- Counterexample to the original C3: the source computes
`Math.round((completed / totalFiles) * 100)` on IEEE binary64 doubles.  At
23 complete files of 40, the double quotient is
5179139571476070 * 2^-53 (just below the exact 0.575), the double product
is 8092405580431359 * 2^-47 = 57.49999999999999289…, and Math.round gives
57 — while round-half-up of the exact ratio, as the claim states it,
gives 58. -/
theorem calculateStats_percentComplete_counterexample :
    (calculateStats exampleFortyFiles).percentComplete = 57
    ∧ (mathRound ((((23 : ℕ) : ℚ) / ((40 : ℕ) : ℚ)) * 100)).toNat = 58
    ∧ (calculateStats exampleFortyFiles).percentComplete
        ≠ (mathRound ((((calculateStats exampleFortyFiles).completed : ℚ)
            / (((calculateStats exampleFortyFiles).totalFiles : ℚ))) * 100)).toNat := by
  have h57 : (calculateStats exampleFortyFiles).percentComplete = 57 := by decide
  have hc : (calculateStats exampleFortyFiles).completed = 23 := by decide
  have ht : (calculateStats exampleFortyFiles).totalFiles = 40 := by decide
  have h58 : (mathRound ((((23 : ℕ) : ℚ) / ((40 : ℕ) : ℚ)) * 100)).toNat = 58 := by
    rw [mathRound_natCast_div 23 40 (by decide)]
  refine ⟨h57, h58, ?_⟩
  rw [h57, hc, ht, h58]
  decide

/-- C3 (amended): percentComplete is Math.round of (completed/totalFiles)*100
evaluated in IEEE binary64 when there is at least one file — which can fall
one below round-half-up of the exact ratio when the double product lands
just under the half, as at 23 of 40 — and 0 when the mapping is empty; 1
complete file of 3 still yields 33, where doubles and the exact rounding
agree. -/
theorem calculateStats_percentComplete (files : FilesMap) :
    (files = [] → (calculateStats files).percentComplete = 0)
    ∧ (files ≠ [] →
        (calculateStats files).percentComplete
          = mathRoundDouble (jsMul (jsDiv (calculateStats files).completed
              (calculateStats files).totalFiles) 100)) := by
  constructor
  · intro h
    subst h
    exact calcStats_percentComplete_nil
  · intro h
    have hpos : (calculateStats files).totalFiles > 0 := by
      rw [calcStats_totalFiles]
      exact List.length_pos.mpr h
    rw [calcStats_percentComplete_eq, if_pos hpos]

/-- Witness for C3: on the concrete three-file mapping with one complete
file, the theorem yields percentComplete = 33, agreeing there with
round-half-up of the exact ratio. -/
theorem calculateStats_percentComplete_witness :
    exampleThreeFiles ≠ []
    ∧ (calculateStats exampleThreeFiles).percentComplete = 33
    ∧ (mathRound ((((1 : ℕ) : ℚ) / ((3 : ℕ) : ℚ)) * 100)).toNat = 33 := by
  refine ⟨by simp [exampleThreeFiles], ?_, ?_⟩
  · have h := (calculateStats_percentComplete exampleThreeFiles).2 (by simp [exampleThreeFiles])
    rw [h]
    decide
  · rw [mathRound_natCast_div 1 3 (by decide)]

/-! ### Claim C1: helper lemmas -/

theorem foldl_setEntry_eq_map (names : List String) (m : FilesMap)
    (hnone : ∀ n ∈ names, getEntry m n = none) (hnd : names.Nodup) :
    names.foldl (fun acc filename => setEntry acc filename initialFileEntry) m
      = m ++ names.map (fun n => (n, initialFileEntry)) := by
  induction names generalizing m with
  | nil => simp
  | cons n rest ih =>
    simp only [List.foldl_cons]
    rw [setEntry_of_getEntry_none m n _ (hnone n (by simp))]
    rw [ih]
    · simp
    · intro r hr
      rw [getEntry_append]
      have h1 : getEntry m r = none := hnone r (by simp [hr])
      have hrn : (n, initialFileEntry).1 ≠ r := by
        simp only []
        rintro rfl
        exact (List.nodup_cons.mp hnd).1 hr
      rw [h1, getEntry_cons_ne _ _ _ hrn, getEntry_nil]
      rfl
    · exact (List.nodup_cons.mp hnd).2

theorem foldl_addContributor_const_none (l : List String) (acc : List String) :
    (l.map (fun _ => initialFileEntry)).foldl addContributor acc = acc := by
  induction l generalizing acc with
  | nil => rfl
  | cons a l ih =>
    simp only [List.map_cons, List.foldl_cons]
    have h1 : addContributor acc initialFileEntry = acc := rfl
    rw [h1, ih]

theorem calculateStats_const_initial (names : List String) :
    calculateStats (names.map (fun n => (n, initialFileEntry)))
      = { totalFiles := names.length
          completed := 0
          inProgress := 0
          notStarted := names.length
          percentComplete := 0
          totalWords := 0
          translatedWords := 0
          contributors := [] } := by
  have hmap : (names.map (fun n => (n, initialFileEntry))).map (fun p => p.2)
      = names.map (fun _ => initialFileEntry) := by
    simp [List.map_map, Function.comp_def]
  ext : 1
  · rw [calcStats_totalFiles]
    simp
  · rw [calcStats_completed]
    simp [List.countP_eq_length_filter, List.filter_map, Function.comp_def,
      initialFileEntry]
  · rw [calcStats_inProgress]
    simp [List.countP_eq_length_filter, List.filter_map, Function.comp_def,
      initialFileEntry]
  · rw [calcStats_notStarted]
    simp [List.countP_eq_length_filter, List.filter_map, Function.comp_def,
      initialFileEntry]
  · rw [calcStats_percentComplete_eq]
    have hc0 : (calculateStats (names.map (fun n => (n, initialFileEntry)))).completed
        = 0 := by
      rw [calcStats_completed]
      simp [List.countP_eq_length_filter, List.filter_map, Function.comp_def,
        initialFileEntry]
    rw [hc0]
    by_cases htf : (calculateStats (names.map (fun n => (n, initialFileEntry)))).totalFiles > 0
    · rw [if_pos htf, jsPercent_zero]
    · rw [if_neg htf]
  · rw [calcStats_totalWords]
    simp [List.map_map, Function.comp_def, initialFileEntry]
  · rw [calcStats_translatedWords]
    simp [List.filter_map, Function.comp_def, initialFileEntry]
  · rw [calcStats_contributors, hmap, foldl_addContributor_const_none]

theorem getEntry_decomp (files : FilesMap) (k : String) (e : TranslationFileMetadata)
    (h : getEntry files k = some e) :
    ∃ A B, files = A ++ (k, e) :: B ∧ ∀ p ∈ A, p.1 ≠ k := by
  induction files with
  | nil => simp [getEntry] at h
  | cons p rest ih =>
    by_cases hp : p.1 = k
    · have hfind : List.find? (fun q => q.1 = k) (p :: rest) = some p :=
        List.find?_cons_of_pos _ (by simpa using hp)
      have hpe : p.2 = e := by
        rw [getEntry, hfind] at h
        simpa using h
      refine ⟨[], rest, ?_, by simp⟩
      have : p = (k, e) := Prod.ext hp hpe
      simp [this]
    · have h' : getEntry rest k = some e := by
        rw [← getEntry_cons_ne p rest k hp]
        exact h
      obtain ⟨A, B, hAB, hA⟩ := ih h'
      refine ⟨p :: A, B, by simp [hAB], ?_⟩
      intro q hq
      rcases List.mem_cons.mp hq with rfl | hq2
      · exact hp
      · exact hA q hq2

theorem keys_not_mem_right (A B : FilesMap) (k : String) (e : TranslationFileMetadata)
    (hnd : ((A ++ (k, e) :: B).map (fun p => p.1)).Nodup) : ∀ p ∈ B, p.1 ≠ k := by
  intro p hp hpk
  have h1 : ((A.map (fun p => p.1)) ++ (k :: B.map (fun p => p.1))).Nodup := by
    simpa [List.map_append] using hnd
  have h2 : (k :: B.map (fun p => p.1)).Nodup := (List.nodup_append.mp h1).2.1
  have h3 : k ∉ B.map (fun p => p.1) := (List.nodup_cons.mp h2).1
  exact h3 (hpk ▸ List.mem_map_of_mem _ hp)

theorem map_replace_decomp (A B : FilesMap) (k : String) (e : TranslationFileMetadata)
    (wc : Nat) (hA : ∀ p ∈ A, p.1 ≠ k) (hB : ∀ p ∈ B, p.1 ≠ k) :
    (A ++ (k, e) :: B).map (fun p =>
        if p.1 = k then (p.1, { p.2 with wordCount := wc }) else p)
      = A ++ (k, { e with wordCount := wc }) :: B := by
  have hAmap : A.map (fun p =>
      if p.1 = k then (p.1, { p.2 with wordCount := wc }) else p) = A.map id :=
    List.map_congr_left (by intro p hp; simp [hA p hp])
  have hBmap : B.map (fun p =>
      if p.1 = k then (p.1, { p.2 with wordCount := wc }) else p) = B.map id :=
    List.map_congr_left (by intro p hp; simp [hB p hp])
  simp only [List.map_append, List.map_cons, hAmap, hBmap, List.map_id]
  simp

theorem addContributor_wordCount (acc : List String) (e : TranslationFileMetadata)
    (wc : Nat) : addContributor acc { e with wordCount := wc } = addContributor acc e := rfl

theorem calculateStats_replace_wordCount (A B : FilesMap) (k : String)
    (e : TranslationFileMetadata) (wc : Nat) (hwc : e.wordCount = 0)
    (hst : e.status ≠ FileStatus.complete) :
    calculateStats (A ++ (k, { e with wordCount := wc }) :: B)
      = { calculateStats (A ++ (k, e) :: B) with
          totalWords := (calculateStats (A ++ (k, e) :: B)).totalWords + wc } := by
  have hcomp : (calculateStats (A ++ (k, { e with wordCount := wc }) :: B)).completed
      = (calculateStats (A ++ (k, e) :: B)).completed := by
    simp [calcStats_completed, List.countP_append, List.countP_cons]
  have htot : (calculateStats (A ++ (k, { e with wordCount := wc }) :: B)).totalFiles
      = (calculateStats (A ++ (k, e) :: B)).totalFiles := by
    simp [calcStats_totalFiles]
  ext : 1
  · simpa using htot
  · simpa using hcomp
  · simp [calcStats_inProgress, List.countP_append, List.countP_cons]
  · simp [calcStats_notStarted, List.countP_append, List.countP_cons]
  · show (calculateStats (A ++ (k, { e with wordCount := wc }) :: B)).percentComplete
      = (calculateStats (A ++ (k, e) :: B)).percentComplete
    rw [calcStats_percentComplete_eq, calcStats_percentComplete_eq, hcomp, htot]
  · show (calculateStats (A ++ (k, { e with wordCount := wc }) :: B)).totalWords
      = (calculateStats (A ++ (k, e) :: B)).totalWords + wc
    simp [calcStats_totalWords, List.map_append, List.sum_append, hwc]
    omega
  · show (calculateStats (A ++ (k, { e with wordCount := wc }) :: B)).translatedWords
      = (calculateStats (A ++ (k, e) :: B)).translatedWords
    simp [calcStats_translatedWords, List.filter_append, List.filter_cons, hst]
  · show (calculateStats (A ++ (k, { e with wordCount := wc }) :: B)).contributors
      = (calculateStats (A ++ (k, e) :: B)).contributors
    simp only [calcStats_contributors, List.map_append, List.map_cons,
      List.foldl_append, List.foldl_cons, addContributor_wordCount]

theorem getEntry_replace_ne (A B : FilesMap) (k k' : String)
    (x y : TranslationFileMetadata) (hne : k' ≠ k) :
    getEntry (A ++ (k, x) :: B) k' = getEntry (A ++ (k, y) :: B) k' := by
  have hkk : ((k, x) : String × TranslationFileMetadata).1 ≠ k' := by
    simpa using hne.symm
  have hkk2 : ((k, y) : String × TranslationFileMetadata).1 ≠ k' := by
    simpa using hne.symm
  rw [getEntry_append, getEntry_append, getEntry_cons_ne _ _ _ hkk,
    getEntry_cons_ne _ _ _ hkk2]

theorem wordCountStep_none (m : TranslationMetadata) (nm : String) :
    wordCountStep m (nm, none) = m := rfl

theorem wordCountStep_absent (m : TranslationMetadata) (nm : String) (wc : Nat)
    (h : getEntry m.files nm = none) : wordCountStep m (nm, some wc) = m := by
  simp [wordCountStep, h]

theorem wordCountPass_invariant_aux (sourceFiles : List (String × Option Nat))
    (m : TranslationMetadata)
    (hstats : m.stats = calculateStats m.files)
    (hkeys : (m.files.map (fun p => p.1)).Nodup)
    (hentries : ∀ nm ∈ sourceFiles.map (fun q => q.1), ∀ e,
      getEntry m.files nm = some e → e.wordCount = 0 ∧ e.status ≠ FileStatus.complete)
    (hnd : (sourceFiles.map (fun q => q.1)).Nodup) :
    (wordCountPass m sourceFiles).stats
      = calculateStats (wordCountPass m sourceFiles).files := by
  induction sourceFiles generalizing m with
  | nil => simpa [wordCountPass] using hstats
  | cons q rest ih =>
    rcases q with ⟨nm, owc⟩
    have hfold : wordCountPass m ((nm, owc) :: rest)
        = wordCountPass (wordCountStep m (nm, owc)) rest := by
      simp [wordCountPass, List.foldl_cons]
    rw [hfold]
    have hnm_rest : nm ∉ rest.map (fun q => q.1) := by
      have := hnd
      simp only [List.map_cons, List.nodup_cons] at this
      exact this.1
    have hnd_rest : (rest.map (fun q => q.1)).Nodup := by
      have := hnd
      simp only [List.map_cons, List.nodup_cons] at this
      exact this.2
    cases owc with
    | none =>
      rw [wordCountStep_none]
      exact ih m hstats hkeys
        (fun nm2 h2 e he => hentries nm2 (by simp [h2]) e he) hnd_rest
    | some wc =>
      by_cases hsome : (getEntry m.files nm).isSome
      · obtain ⟨e, he⟩ := Option.isSome_iff_exists.mp hsome
        obtain ⟨hwc0, hstc⟩ := hentries nm (by simp) e he
        obtain ⟨A, B, hAB, hA⟩ := getEntry_decomp m.files nm e he
        have hB : ∀ p ∈ B, p.1 ≠ nm := keys_not_mem_right A B nm e (hAB ▸ hkeys)
        have hmapAB : m.files.map (fun p =>
            if p.1 = nm then (p.1, { p.2 with wordCount := wc }) else p)
            = A ++ (nm, { e with wordCount := wc }) :: B := by
          rw [hAB]
          exact map_replace_decomp A B nm e wc hA hB
        have hstep : wordCountStep m (nm, some wc)
            = { m with
                files := A ++ (nm, { e with wordCount := wc }) :: B
                stats := { m.stats with totalWords := m.stats.totalWords + wc } } := by
          simp only [wordCountStep, if_pos hsome, hmapAB]
        rw [hstep]
        refine ih _ ?_ ?_ ?_ hnd_rest
        · show ({ m.stats with totalWords := m.stats.totalWords + wc } : TranslationStats)
            = calculateStats (A ++ (nm, { e with wordCount := wc }) :: B)
          rw [calculateStats_replace_wordCount A B nm e wc hwc0 hstc, hstats, hAB]
        · show ((A ++ (nm, { e with wordCount := wc }) :: B).map (fun p => p.1)).Nodup
          have hsame : ((A ++ (nm, { e with wordCount := wc }) :: B).map (fun p => p.1))
              = ((A ++ (nm, e) :: B).map (fun p => p.1)) := by
            simp [List.map_append, List.map_cons]
          rw [hsame, ← hAB]
          exact hkeys
        · intro nm2 h2 e2 he2
          have hne2 : nm2 ≠ nm := by
            rintro rfl
            exact hnm_rest h2
          refine hentries nm2 (by simp [h2]) e2 ?_
          rw [hAB]
          rw [getEntry_replace_ne A B nm nm2 e { e with wordCount := wc } hne2]
          exact he2
      · have hnone : getEntry m.files nm = none := Option.not_isSome_iff_eq_none.mp hsome
        rw [wordCountStep_absent m nm wc hnone]
        exact ih m hstats hkeys
          (fun nm2 h2 e2 he2 => hentries nm2 (by simp [h2]) e2 he2) hnd_rest

theorem createInitial_files_eq (now : Nat) (slug lang lname : String)
    (dir : Direction) (coord : String) (files : List String) (sha : String)
    (hnd : files.Nodup) :
    (createInitialTranslationMetadata now slug lang lname dir coord files sha).files
      = files.map (fun n => (n, initialFileEntry)) := by
  show files.foldl (fun acc filename => setEntry acc filename initialFileEntry) []
      = files.map (fun n => (n, initialFileEntry))
  rw [foldl_setEntry_eq_map files [] (fun n _ => rfl) hnd]
  simp

theorem createInitial_stats_inv (now : Nat) (slug lang lname : String)
    (dir : Direction) (coord : String) (files : List String) (sha : String)
    (hnd : files.Nodup) :
    (createInitialTranslationMetadata now slug lang lname dir coord files sha).stats
      = calculateStats
          (createInitialTranslationMetadata now slug lang lname dir coord files sha).files := by
  rw [createInitial_files_eq now slug lang lname dir coord files sha hnd,
    calculateStats_const_initial]
  rfl

/-! ### Claim C1 -/

/-- C1 counterexample: createInitialTranslationMetadata applied to a filename
list with a duplicate ("a.md" twice) returns a document whose stats field
(totalFiles = 2, from files.length) differs from calculateStats over its
files mapping, which holds a single entry. -/
theorem stats_invariant_counterexample :
    (createInitialTranslationMetadata 0 "p" "es-ES" "Spanish" .ltr "coord"
        ["a.md", "a.md"] "sha").stats
      ≠ calculateStats
          (createInitialTranslationMetadata 0 "p" "es-ES" "Spanish" .ltr "coord"
            ["a.md", "a.md"] "sha").files := by
  intro h
  have h2 := congrArg TranslationStats.totalFiles h
  have hL : (createInitialTranslationMetadata 0 "p" "es-ES" "Spanish" .ltr "coord"
      ["a.md", "a.md"] "sha").stats.totalFiles = 2 := rfl
  have hR : (calculateStats (createInitialTranslationMetadata 0 "p" "es-ES" "Spanish"
      .ltr "coord" ["a.md", "a.md"] "sha").files).totalFiles = 1 := rfl
  rw [hL, hR] at h2
  exact absurd h2 (by decide)

/-- C1 (amended): when the enumerated filename lists carry no duplicate name
(directory enumerations never do), stats always equals calculateStats over
the files mapping: for createInitialTranslationMetadata, for every
application of updateFileMetadata (any document, filename, update and
timestamp, with no side condition), and after the word-count pass of
initializeLanguage. -/
theorem stats_invariant :
    (∀ (now : Nat) (slug lang lname : String) (dir : Direction) (coord : String)
        (files : List String) (sha : String), files.Nodup →
        (createInitialTranslationMetadata now slug lang lname dir coord files sha).stats
          = calculateStats
              (createInitialTranslationMetadata now slug lang lname dir coord files sha).files)
    ∧ (∀ (m : TranslationMetadata) (filename : String) (u : FileMetadataUpdate) (now : Nat),
        (updateFileMetadata m filename u now).stats
          = calculateStats (updateFileMetadata m filename u now).files)
    ∧ (∀ (now : Nat) (slug lang lname : String) (dir : Direction) (coord : String)
        (sha : String) (sourceFiles : List (String × Option Nat)),
        (sourceFiles.map (fun q => q.1)).Nodup →
        (wordCountPass
            (createInitialTranslationMetadata now slug lang lname dir coord
              (sourceFiles.map (fun q => q.1)) sha) sourceFiles).stats
          = calculateStats
              (wordCountPass
                (createInitialTranslationMetadata now slug lang lname dir coord
                  (sourceFiles.map (fun q => q.1)) sha) sourceFiles).files) := by
  refine ⟨?_, ?_, ?_⟩
  · intro now slug lang lname dir coord files sha hnd
    exact createInitial_stats_inv now slug lang lname dir coord files sha hnd
  · intro m filename u now
    rfl
  · intro now slug lang lname dir coord sha sourceFiles hnd
    refine wordCountPass_invariant_aux sourceFiles _ ?_ ?_ ?_ hnd
    · exact createInitial_stats_inv _ _ _ _ _ _ _ _ hnd
    · rw [createInitial_files_eq _ _ _ _ _ _ _ _ hnd]
      simpa [List.map_map, Function.comp_def] using hnd
    · intro nm hmem e he
      rw [createInitial_files_eq _ _ _ _ _ _ _ _ hnd] at he
      unfold getEntry at he
      obtain ⟨p, hp, hpe⟩ := Option.map_eq_some'.mp he
      have hmem2 := List.mem_of_find?_eq_some hp
      obtain ⟨n, hn, hne⟩ := List.mem_map.mp hmem2
      have hE : e = initialFileEntry := by
        rw [← hpe, ← hne]
      rw [hE]
      exact ⟨rfl, by decide⟩

/-- Witness for C1: the amended invariant applied at concrete duplicate-free
inputs, one for each of the three operations. -/
theorem stats_invariant_witness :
    ((createInitialTranslationMetadata 0 "p" "es-ES" "Spanish" .ltr "coord"
        ["a.md", "b.md"] "sha").stats
      = calculateStats
          (createInitialTranslationMetadata 0 "p" "es-ES" "Spanish" .ltr "coord"
            ["a.md", "b.md"] "sha").files)
    ∧ ((updateFileMetadata
          (createInitialTranslationMetadata 0 "p" "es-ES" "Spanish" .ltr "coord"
            ["a.md", "b.md"] "sha") "a.md" { status := some .inProgress } 5).stats
        = calculateStats
            (updateFileMetadata
              (createInitialTranslationMetadata 0 "p" "es-ES" "Spanish" .ltr "coord"
                ["a.md", "b.md"] "sha") "a.md" { status := some .inProgress } 5).files)
    ∧ ((wordCountPass
          (createInitialTranslationMetadata 0 "p" "es-ES" "Spanish" .ltr "coord"
            (([("a.md", some 7), ("b.md", none)] : List (String × Option Nat)).map
              (fun q => q.1)) "sha")
          [("a.md", some 7), ("b.md", none)]).stats
        = calculateStats
            (wordCountPass
              (createInitialTranslationMetadata 0 "p" "es-ES" "Spanish" .ltr "coord"
                (([("a.md", some 7), ("b.md", none)] : List (String × Option Nat)).map
                  (fun q => q.1)) "sha")
              [("a.md", some 7), ("b.md", none)]).files) :=
  ⟨stats_invariant.1 0 "p" "es-ES" "Spanish" .ltr "coord" ["a.md", "b.md"] "sha" (by decide),
   stats_invariant.2.1 (createInitialTranslationMetadata 0 "p" "es-ES" "Spanish" .ltr "coord"
      ["a.md", "b.md"] "sha") "a.md" { status := some .inProgress } 5,
   stats_invariant.2.2 0 "p" "es-ES" "Spanish" .ltr "coord" "sha"
      [("a.md", some 7), ("b.md", none)] (by decide)⟩

/-! ### Claims C7 and C9: helper lemmas about setEntry and updateFileMetadata -/

theorem getEntry_map_setfn_ne (m : FilesMap) (k k' : String)
    (v : TranslationFileMetadata) (h : k' ≠ k) :
    getEntry (m.map (fun p => if p.1 = k then (k, v) else p)) k' = getEntry m k' := by
  induction m with
  | nil => rfl
  | cons p rest ih =>
    by_cases hp : p.1 = k
    · rw [List.map_cons, if_pos hp]
      rw [getEntry_cons_ne (k, v) _ k' (by simpa using h.symm)]
      rw [getEntry_cons_ne p rest k' (by rw [hp]; exact fun hh => h hh.symm)]
      exact ih
    · rw [List.map_cons, if_neg hp]
      by_cases hpk : p.1 = k'
      · simp [getEntry, List.find?_cons_of_pos, hpk]
      · rw [getEntry_cons_ne p _ k' hpk, getEntry_cons_ne p rest k' hpk]
        exact ih

theorem getEntry_setEntry_ne (m : FilesMap) (k k' : String)
    (v : TranslationFileMetadata) (h : k' ≠ k) :
    getEntry (setEntry m k v) k' = getEntry m k' := by
  unfold setEntry
  by_cases hf : (m.find? (fun p => p.1 = k)).isSome
  · rw [if_pos hf]
    exact getEntry_map_setfn_ne m k k' v h
  · rw [if_neg hf, getEntry_append]
    have h1 : getEntry [(k, v)] k' = none := by
      have : ((k, v) : String × TranslationFileMetadata).1 ≠ k' := by
        simpa using h.symm
      rw [getEntry_cons_ne _ _ _ this, getEntry_nil]
    rw [h1]
    cases getEntry m k' <;> rfl

theorem getEntry_map_setfn_self (m : FilesMap) (k : String)
    (v : TranslationFileMetadata) (hf : (m.find? (fun p => p.1 = k)).isSome) :
    getEntry (m.map (fun p => if p.1 = k then (k, v) else p)) k = some v := by
  induction m with
  | nil => simp at hf
  | cons p rest ih =>
    by_cases hp : p.1 = k
    · rw [List.map_cons, if_pos hp, getEntry_cons_self]
    · rw [List.map_cons, if_neg hp, getEntry_cons_ne p _ k hp]
      apply ih
      rwa [List.find?_cons_of_neg _ (by simpa using hp)] at hf

theorem getEntry_setEntry_self (m : FilesMap) (k : String)
    (v : TranslationFileMetadata) : getEntry (setEntry m k v) k = some v := by
  unfold setEntry
  by_cases hf : (m.find? (fun p => p.1 = k)).isSome
  · rw [if_pos hf]
    exact getEntry_map_setfn_self m k v hf
  · rw [if_neg hf, getEntry_append]
    have h1 : getEntry m k = none := by
      rw [Option.not_isSome_iff_eq_none] at hf
      rw [getEntry, hf]
      rfl
    rw [h1, getEntry_cons_self]
    rfl

theorem foldl_addContributor_congr (l1 : List TranslationFileMetadata) :
    ∀ (l2 : List TranslationFileMetadata),
      l1.map (fun f => f.lastContributor) = l2.map (fun f => f.lastContributor) →
      ∀ acc, l1.foldl addContributor acc = l2.foldl addContributor acc := by
  induction l1 with
  | nil =>
    intro l2 h acc
    cases l2 with
    | nil => rfl
    | cons b l2 => simp at h
  | cons a l1 ih =>
    intro l2 h acc
    cases l2 with
    | nil => simp at h
    | cons b l2 =>
      simp only [List.map_cons, List.cons.injEq] at h
      simp only [List.foldl_cons]
      have hab : addContributor acc a = addContributor acc b := by
        simp [addContributor, h.1]
      rw [hab]
      exact ih l2 h.2 _

theorem calculateStats_congr (files1 files2 : FilesMap)
    (h : files1.map (fun p => (p.2.status, p.2.wordCount, p.2.lastContributor))
       = files2.map (fun p => (p.2.status, p.2.wordCount, p.2.lastContributor))) :
    calculateStats files1 = calculateStats files2 := by
  have hlen : files1.length = files2.length := by
    have := congrArg List.length h
    simpa using this
  have hcomp : (calculateStats files1).completed = (calculateStats files2).completed := by
    rw [calcStats_completed, calcStats_completed]
    have := congrArg
      (List.countP (fun v : FileStatus × Nat × Option String => v.1 = FileStatus.complete)) h
    simpa [List.countP_map, Function.comp_def] using this
  have htotf : (calculateStats files1).totalFiles = (calculateStats files2).totalFiles := by
    rw [calcStats_totalFiles, calcStats_totalFiles, hlen]
  ext : 1
  · exact htotf
  · exact hcomp
  · rw [calcStats_inProgress, calcStats_inProgress]
    have := congrArg
      (List.countP (fun v : FileStatus × Nat × Option String => v.1 = FileStatus.inProgress)) h
    simpa [List.countP_map, Function.comp_def] using this
  · rw [calcStats_notStarted, calcStats_notStarted]
    have := congrArg
      (List.countP (fun v : FileStatus × Nat × Option String => v.1 = FileStatus.notStarted)) h
    simpa [List.countP_map, Function.comp_def] using this
  · rw [calcStats_percentComplete_eq, calcStats_percentComplete_eq, hcomp, htotf]
  · rw [calcStats_totalWords, calcStats_totalWords]
    have := congrArg
      (fun l : List (FileStatus × Nat × Option String) => (l.map (fun v => v.2.1)).sum) h
    simpa [List.map_map, Function.comp_def] using this
  · rw [calcStats_translatedWords, calcStats_translatedWords]
    have := congrArg
      (fun l : List (FileStatus × Nat × Option String) =>
        ((l.filter (fun v => v.1 = FileStatus.complete)).map (fun v => v.2.1)).sum) h
    simpa [List.filter_map, List.map_map, Function.comp_def] using this
  · rw [calcStats_contributors, calcStats_contributors]
    apply foldl_addContributor_congr
    have := congrArg
      (fun l : List (FileStatus × Nat × Option String) => l.map (fun v => v.2.2)) h
    simpa [List.map_map, Function.comp_def] using this

theorem getD_getD {α : Type _} (o : Option α) (a : α) : o.getD (o.getD a) = o.getD a := by
  cases o <;> rfl

theorem applyUpdate_stamped (base : TranslationFileMetadata) (u : FileMetadataUpdate)
    (t : Nat) :
    applyUpdate { applyUpdate base u with lastUpdated := some t } u
      = { applyUpdate base u with lastUpdated := u.lastUpdated.getD (some t) } := by
  ext <;> simp [applyUpdate, getD_getD]

theorem calculateStats_setEntry_stamp (files : FilesMap) (k : String)
    (e1 : TranslationFileMetadata) (x : Option Nat)
    (hsome : (getEntry files k).isSome)
    (hall : ∀ p ∈ files, p.1 = k → p.2 = e1) :
    calculateStats (setEntry files k { e1 with lastUpdated := x })
      = calculateStats files := by
  have hf : (files.find? (fun p => p.1 = k)).isSome := by
    simpa [getEntry] using hsome
  apply calculateStats_congr
  rw [setEntry, if_pos hf, List.map_map]
  refine List.map_congr_left ?_
  intro p hp
  by_cases hpk : p.1 = k
  · have hpe : p.2 = e1 := hall p hp hpk
    simp [Function.comp_def, hpk, hpe]
  · simp [Function.comp_def, hpk]

/-! ### Claim C7 -/

/-- C7: applying updateFileMetadata twice with the same filename and partial
update (at clock times t1 < t2) yields in the second result the same stats
and the same file entry as the first in every field except the timestamps:
the entry's lastUpdated goes from t1 to t2 and the document's lastUpdated
from t1 to t2, strictly advancing; all other entries are untouched. -/
theorem updateFileMetadata_idempotent (m : TranslationMetadata) (filename : String)
    (u : FileMetadataUpdate) (t1 t2 : Nat) (h : t1 < t2) :
    (updateFileMetadata (updateFileMetadata m filename u t1) filename u t2).stats
        = (updateFileMetadata m filename u t1).stats
    ∧ (updateFileMetadata m filename u t1).lastUpdated = t1
    ∧ (updateFileMetadata (updateFileMetadata m filename u t1) filename u t2).lastUpdated = t2
    ∧ (updateFileMetadata m filename u t1).lastUpdated
        < (updateFileMetadata (updateFileMetadata m filename u t1) filename u t2).lastUpdated
    ∧ getEntry (updateFileMetadata (updateFileMetadata m filename u t1) filename u t2).files
          filename
        = (getEntry (updateFileMetadata m filename u t1).files filename).map
            (fun e => { e with lastUpdated := some t2 })
    ∧ (getEntry (updateFileMetadata m filename u t1).files filename).map
          (fun e => e.lastUpdated) = some (some t1)
    ∧ ∀ k : String, k ≠ filename →
        getEntry (updateFileMetadata (updateFileMetadata m filename u t1) filename u t2).files k
          = getEntry (updateFileMetadata m filename u t1).files k := by
  set base := (getEntry m.files filename).getD synthesizedFileEntry with hbase
  set e1 := ({ applyUpdate base u with lastUpdated := some t1
               } : TranslationFileMetadata) with he1
  have hm1files : (updateFileMetadata m filename u t1).files
      = setEntry m.files filename e1 := rfl
  have hget1 : getEntry (updateFileMetadata m filename u t1).files filename = some e1 := by
    rw [hm1files]
    exact getEntry_setEntry_self m.files filename e1
  have hbase2 : (getEntry (updateFileMetadata m filename u t1).files filename).getD
      synthesizedFileEntry = e1 := by
    rw [hget1]
    rfl
  have he2 : ({ applyUpdate e1 u with lastUpdated := some t2 } : TranslationFileMetadata)
      = { e1 with lastUpdated := some t2 } := by
    rw [he1, applyUpdate_stamped]
  have hm2files : (updateFileMetadata (updateFileMetadata m filename u t1) filename u t2).files
      = setEntry (updateFileMetadata m filename u t1).files filename
          { e1 with lastUpdated := some t2 } := by
    show setEntry (updateFileMetadata m filename u t1).files filename
        { applyUpdate ((getEntry (updateFileMetadata m filename u t1).files filename).getD
            synthesizedFileEntry) u with lastUpdated := some t2 } = _
    rw [hbase2, he2]
  have hall : ∀ p ∈ (updateFileMetadata m filename u t1).files, p.1 = filename → p.2 = e1 := by
    intro p hp hpk
    rw [hm1files] at hp
    exact snd_eq_of_mem_setEntry m.files filename e1 p hp hpk
  refine ⟨?_, rfl, rfl, h, ?_, ?_, ?_⟩
  · show calculateStats
        (updateFileMetadata (updateFileMetadata m filename u t1) filename u t2).files
      = (updateFileMetadata m filename u t1).stats
    rw [hm2files]
    rw [calculateStats_setEntry_stamp _ filename e1 (some t2) (by rw [hget1]; rfl) hall]
    rfl
  · rw [hm2files, getEntry_setEntry_self, hget1]
    rfl
  · rw [hget1]
    rfl
  · intro k hk
    rw [hm2files, getEntry_setEntry_ne _ _ _ _ hk]

/-- Witness for C7 at a concrete document, filename, update and clock pair. -/
theorem updateFileMetadata_idempotent_witness :
    (1 : Nat) < 2
    ∧ (updateFileMetadata
          (updateFileMetadata
            (createInitialTranslationMetadata 0 "p" "es-ES" "Spanish" .ltr "coord"
              ["a.md"] "sha") "a.md" { status := some .inProgress } 1)
          "a.md" { status := some .inProgress } 2).stats
        = (updateFileMetadata
            (createInitialTranslationMetadata 0 "p" "es-ES" "Spanish" .ltr "coord"
              ["a.md"] "sha") "a.md" { status := some .inProgress } 1).stats :=
  ⟨by decide,
   (updateFileMetadata_idempotent
      (createInitialTranslationMetadata 0 "p" "es-ES" "Spanish" .ltr "coord" ["a.md"] "sha")
      "a.md" { status := some .inProgress } 1 2 (by decide)).1⟩

/-! ### Claim C9 -/

/-- C9: updateFileMetadata is a pure function of its input document (the
embedding is functional, mirroring the object spreads of the source, which
never mutate the argument) and it preserves every top-level field other
than files, stats and lastUpdated, and every file entry other than the
named filename. -/
theorem updateFileMetadata_frame (m : TranslationMetadata) (filename : String)
    (u : FileMetadataUpdate) (now : Nat) :
    (updateFileMetadata m filename u now).version = m.version
    ∧ (updateFileMetadata m filename u now).language = m.language
    ∧ (updateFileMetadata m filename u now).languageName = m.languageName
    ∧ (updateFileMetadata m filename u now).direction = m.direction
    ∧ (updateFileMetadata m filename u now).project = m.project
    ∧ (updateFileMetadata m filename u now).coordinator = m.coordinator
    ∧ (updateFileMetadata m filename u now).initialized = m.initialized
    ∧ (updateFileMetadata m filename u now).meta = m.meta
    ∧ ∀ k : String, k ≠ filename →
        getEntry (updateFileMetadata m filename u now).files k = getEntry m.files k := by
  refine ⟨rfl, rfl, rfl, rfl, rfl, rfl, rfl, rfl, ?_⟩
  intro k hk
  show getEntry (setEntry m.files filename _) k = getEntry m.files k
  exact getEntry_setEntry_ne _ _ _ _ hk

/-- Witness for C9 at a concrete document: the untouched entry "b.md" reads
back unchanged. -/
theorem updateFileMetadata_frame_witness :
    ("b.md" : String) ≠ "a.md"
    ∧ getEntry (updateFileMetadata
          (createInitialTranslationMetadata 0 "p" "es-ES" "Spanish" .ltr "coord"
            ["a.md", "b.md"] "sha") "a.md" { status := some .complete } 9).files "b.md"
        = getEntry (createInitialTranslationMetadata 0 "p" "es-ES" "Spanish" .ltr "coord"
            ["a.md", "b.md"] "sha").files "b.md" :=
  ⟨by decide,
   (updateFileMetadata_frame
      (createInitialTranslationMetadata 0 "p" "es-ES" "Spanish" .ltr "coord"
        ["a.md", "b.md"] "sha") "a.md" { status := some .complete } 9).2.2.2.2.2.2.2.2
      "b.md" (by decide)⟩

/-! ### Claim C5 -/

/-- C5: the status computed by checkForkSyncStatus is the pure four-way
classification of the pair (behindBy, aheadBy): (0,0) is identical, (>0,0)
behind, (0,>0) ahead, (>0,>0) diverged. -/
theorem checkForkSyncStatus_classification (comparison : CompareData) :
    ((checkForkSyncStatus comparison).behindBy = 0 ∧
        (checkForkSyncStatus comparison).aheadBy = 0 →
      (checkForkSyncStatus comparison).status = SyncStatus.identical)
    ∧ ((checkForkSyncStatus comparison).behindBy > 0 ∧
        (checkForkSyncStatus comparison).aheadBy = 0 →
      (checkForkSyncStatus comparison).status = SyncStatus.behind)
    ∧ ((checkForkSyncStatus comparison).behindBy = 0 ∧
        (checkForkSyncStatus comparison).aheadBy > 0 →
      (checkForkSyncStatus comparison).status = SyncStatus.ahead)
    ∧ ((checkForkSyncStatus comparison).behindBy > 0 ∧
        (checkForkSyncStatus comparison).aheadBy > 0 →
      (checkForkSyncStatus comparison).status = SyncStatus.diverged) := by
  refine ⟨?_, ?_, ?_, ?_⟩ <;>
  · rintro ⟨h1, h2⟩
    simp only [checkForkSyncStatus] at h1 h2 ⊢
    split_ifs with c1 c2 c3 <;> first | rfl | (exfalso; omega)

/-- Witness for C5: behindBy = 5, aheadBy = 0 classifies as behind, and
behindBy = 2, aheadBy = 3 classifies as diverged. -/
theorem checkForkSyncStatus_classification_witness :
    (checkForkSyncStatus { behind_by := some 5, ahead_by := some 0, commits := none }).status
        = SyncStatus.behind
    ∧ (checkForkSyncStatus { behind_by := some 2, ahead_by := some 3, commits := none }).status
        = SyncStatus.diverged :=
  ⟨(checkForkSyncStatus_classification
      { behind_by := some 5, ahead_by := some 0, commits := none }).2.1 (by decide),
   (checkForkSyncStatus_classification
      { behind_by := some 2, ahead_by := some 3, commits := none }).2.2.2 (by decide)⟩

/-! ### Claim C6 -/

/-- C6: sanitizeFilename rejects "../../etc/passwd" with the path-traversal
error; in particular it does not return ok "passwd" (no silent
truncation). -/
theorem sanitizeFilename_path_traversal :
    sanitizeFilename ("../../etc/passwd".toList)
        = .error ("Invalid filename: path traversal detected".toList)
    ∧ sanitizeFilename ("../../etc/passwd".toList) ≠ .ok ("passwd".toList) := by
  have h1 : sanitizeFilename ("../../etc/passwd".toList)
      = .error ("Invalid filename: path traversal detected".toList) := by rfl
  refine ⟨h1, ?_⟩
  rw [h1]
  intro h
  exact Except.noConfusion h

/-! ### Claim C4 -/

/-- C4 counterexample: under the default budget (maxRetries = 3 total
attempts), an operation that fails with 500 on its first three attempts and
would succeed on a fourth never reaches that fourth call: request returns
the typed GitHubError after exactly 3 underlying calls, not the success
after 4. -/
theorem request_default_budget_counterexample :
    request (fun n => if n < 3 then CallOutcome.err 500 else CallOutcome.ok 42)
        defaultMaxRetries
      ≠ (RequestResult.ok 42, 4)
    ∧ request (fun n => if n < 3 then CallOutcome.err 500 else CallOutcome.ok 42)
        defaultMaxRetries
      = (RequestResult.ghError (handleError 500), 3) := by
  have h2 : request (fun n => if n < 3 then CallOutcome.err 500 else CallOutcome.ok 42)
      defaultMaxRetries = (RequestResult.ghError (handleError 500), 3) := by rfl
  refine ⟨?_, h2⟩
  rw [h2]
  intro h
  have := congrArg Prod.snd h
  simp at this

/-- C4 (amended): the 404 half of the claim holds as stated: a 404 failure
surfaces the typed GitHubError (status 404, with the sync-your-fork hint)
after exactly 1 call.  The 500-retry half holds only within the default
budget of maxRetries = 3 total attempts: 500 failures on the first two
attempts followed by success on the third surface the success after exactly
3 calls, three consecutive 500 failures exhaust the budget after exactly 3
calls, and the three-failures-then-success-on-the-4th behaviour of the
claim requires an explicit budget of 4 attempts. -/
theorem request_retry_policy (α : Type) (op : Nat → CallOutcome α) (v : α) :
    (op 0 = CallOutcome.err 404 →
      request op defaultMaxRetries = (RequestResult.ghError (handleError 404), 1))
    ∧ (op 0 = CallOutcome.err 500 → op 1 = CallOutcome.err 500 → op 2 = CallOutcome.ok v →
      request op defaultMaxRetries = (RequestResult.ok v, 3))
    ∧ (op 0 = CallOutcome.err 500 → op 1 = CallOutcome.err 500 → op 2 = CallOutcome.err 500 →
      request op defaultMaxRetries = (RequestResult.ghError (handleError 500), 3))
    ∧ (op 0 = CallOutcome.err 500 → op 1 = CallOutcome.err 500 → op 2 = CallOutcome.err 500 →
        op 3 = CallOutcome.ok v →
      request op 4 = (RequestResult.ok v, 4)) := by
  refine ⟨?_, ?_, ?_, ?_⟩
  · intro h0
    simp [request, defaultMaxRetries, requestLoop, h0, isRetryableStatus]
  · intro h0 h1 h2
    simp [request, defaultMaxRetries, requestLoop, h0, h1, h2, isRetryableStatus]
  · intro h0 h1 h2
    simp [request, defaultMaxRetries, requestLoop, h0, h1, h2, isRetryableStatus]
  · intro h0 h1 h2 h3
    simp [request, requestLoop, h0, h1, h2, h3, isRetryableStatus]

/-- Witness for C4 (amended), at concrete operations: the 404
short-circuit, the in-budget retry success, the exhausted budget, and the
4-attempt budget success. -/
theorem request_retry_policy_witness :
    ((fun _ : Nat => CallOutcome.err (α := Nat) 404) 0 = CallOutcome.err 404
      ∧ request (fun _ : Nat => CallOutcome.err (α := Nat) 404) defaultMaxRetries
          = (RequestResult.ghError (handleError 404), 1))
    ∧ request (fun n => if n < 2 then CallOutcome.err 500 else CallOutcome.ok 7)
        defaultMaxRetries = (RequestResult.ok 7, 3)
    ∧ request (fun n => if n < 3 then CallOutcome.err 500 else CallOutcome.ok 7) 4
        = (RequestResult.ok 7, 4) :=
  ⟨⟨rfl, (request_retry_policy Nat (fun _ => CallOutcome.err 404) 0).1 rfl⟩,
   (request_retry_policy Nat (fun n => if n < 2 then CallOutcome.err 500 else CallOutcome.ok 7)
      7).2.1 rfl rfl rfl,
   (request_retry_policy Nat (fun n => if n < 3 then CallOutcome.err 500 else CallOutcome.ok 7)
      7).2.2.2 rfl rfl rfl rfl⟩

/-! ### Claim C10: helper lemmas -/

theorem storeSet_self (store : RateLimitStore) (k : String) (v : Option RateLimitEntry) :
    storeSet store k v k = v := by
  simp [storeSet]

theorem checkRateLimit_fresh (store : RateLimitStore) (id : String)
    (limit windowMs now : Nat) (h : store id = none) :
    checkRateLimit store id limit windowMs now
      = ({ success := true, limit := limit, remaining := (limit : Int) - 1
           reset := now + windowMs },
         storeSet store id (some { count := 1, resetAt := now + windowMs })) := by
  simp [checkRateLimit, h]

theorem checkRateLimit_in_window_ok (store : RateLimitStore) (id : String)
    (limit windowMs now c R : Nat)
    (hstore : store id = some { count := c, resetAt := R }) (hnow : now ≤ R)
    (hc : c + 1 ≤ limit) :
    checkRateLimit store id limit windowMs now
      = ({ success := true, limit := limit
           remaining := (limit : Int) - ((c + 1 : Nat) : Int), reset := R },
         storeSet store id (some { count := c + 1, resetAt := R })) := by
  have hR : ¬ (R < now) := by omega
  have hgt : ¬ (c + 1 > limit) := by omega
  simp [checkRateLimit, hstore, hR, hgt]

theorem checkRateLimit_in_window_blocked (store : RateLimitStore) (id : String)
    (limit windowMs now c R : Nat)
    (hstore : store id = some { count := c, resetAt := R }) (hnow : now ≤ R)
    (hc : c + 1 > limit) :
    checkRateLimit store id limit windowMs now
      = ({ success := false, limit := limit, remaining := 0, reset := R },
         storeSet store id (some { count := c + 1, resetAt := R })) := by
  have hR : ¬ (R < now) := by omega
  simp [checkRateLimit, hstore, hR, hc]

theorem decide_le_congr (a b n : Nat) (h : a = b) : decide (a ≤ n) = decide (b ≤ n) := by
  rw [h]

theorem runRateLimit_in_window (ts : List Nat) (store : RateLimitStore) (id : String)
    (limit windowMs : Nat) (c R : Nat)
    (hstore : store id = some { count := c, resetAt := R })
    (hts : ∀ t ∈ ts, t ≤ R) :
    ((runRateLimit store id limit windowMs ts).1.map (fun r => r.success)
        = (List.range ts.length).map (fun i => decide (c + i + 1 ≤ limit)))
    ∧ (runRateLimit store id limit windowMs ts).2 id
        = some { count := c + ts.length, resetAt := R } := by
  induction ts generalizing store c with
  | nil => exact ⟨rfl, by simpa using hstore⟩
  | cons t ts ih =>
    have ht : t ≤ R := hts t (by simp)
    have hstore2 : (storeSet store id (some { count := c + 1, resetAt := R })) id
        = some { count := c + 1, resetAt := R } := storeSet_self _ _ _
    have hts2 : ∀ u ∈ ts, u ≤ R := fun u hu => hts u (by simp [hu])
    obtain ⟨ihmap, ihstore⟩ :=
      ih (storeSet store id (some { count := c + 1, resetAt := R })) (c + 1) hstore2 hts2
    have htail : (List.range ts.length).map (fun i => decide (c + 1 + i + 1 ≤ limit))
        = (List.range ts.length).map (fun i => decide (c + (i + 1) + 1 ≤ limit)) :=
      List.map_congr_left (fun i _ => decide_le_congr _ _ _ (by omega))
    have hrange : (List.range (ts.length + 1)).map (fun i => decide (c + i + 1 ≤ limit))
        = decide (c + 0 + 1 ≤ limit) ::
            (List.range ts.length).map (fun i => decide (c + (i + 1) + 1 ≤ limit)) := by
      rw [List.range_succ_eq_map, List.map_cons, List.map_map]
      rfl
    by_cases hc : c + 1 ≤ limit
    · have hstep := checkRateLimit_in_window_ok store id limit windowMs t c R hstore ht hc
      constructor
      · show (checkRateLimit store id limit windowMs t).1.success ::
            (runRateLimit (checkRateLimit store id limit windowMs t).2 id limit windowMs ts).1.map
              (fun r => r.success) = _
        rw [hstep]
        simp only [List.length_cons, hrange]
        rw [ihmap, htail]
        simp [hc]
      · show (runRateLimit (checkRateLimit store id limit windowMs t).2 id limit windowMs ts).2 id
            = _
        rw [hstep]
        simp only []
        rw [ihstore]
        have : c + 1 + ts.length = c + (ts.length + 1) := by omega
        rw [this]
        simp
    · have hstep := checkRateLimit_in_window_blocked store id limit windowMs t c R hstore ht
        (by omega)
      constructor
      · show (checkRateLimit store id limit windowMs t).1.success ::
            (runRateLimit (checkRateLimit store id limit windowMs t).2 id limit windowMs ts).1.map
              (fun r => r.success) = _
        rw [hstep]
        simp only [List.length_cons, hrange]
        rw [ihmap, htail]
        simp [hc]
      · show (runRateLimit (checkRateLimit store id limit windowMs t).2 id limit windowMs ts).2 id
            = _
        rw [hstep]
        simp only []
        rw [ihstore]
        have : c + 1 + ts.length = c + (ts.length + 1) := by omega
        rw [this]
        simp

theorem count_true_range_decide (n limit : Nat) :
    (((List.range n).map (fun i => decide (i + 1 ≤ limit))).count true) = min n limit := by
  induction n with
  | zero => simp
  | succ n ih =>
    rw [List.range_succ, List.map_append, List.count_append]
    by_cases h : n + 1 ≤ limit
    · simp only [ih, List.map_cons, List.map_nil]
      simp [h]
      omega
    · simp only [ih, List.map_cons, List.map_nil]
      simp [h]
      omega

/-! ### Claim C10 -/

/-- C10 counterexample: with limit = 0 the first call of a window still
returns success = true (the new-window branch never checks the limit), so a
single call already exceeds the claimed bound of at most `limit` successes. -/
theorem checkRateLimit_zero_limit_counterexample :
    ¬ (((runRateLimit emptyRateLimitStore "user" 0 1000 [5]).1.map
          (fun r => r.success)).count true ≤ 0) := by
  decide

/-- C10 (amended): for every identifier, positive limit and window length,
in a sequence of checkRateLimit calls for that identifier starting from a
store with no entry for it, whose times all fall within the window opened
by the first call, at most `limit` calls return success = true, and after a
call returns success = false every later call of the window also returns
success = false. -/
theorem checkRateLimit_window (store : RateLimitStore) (id : String)
    (limit windowMs : Nat) (t1 : Nat) (ts : List Nat)
    (hfresh : store id = none) (hlim : 1 ≤ limit)
    (hts : ∀ t ∈ ts, t ≤ t1 + windowMs) :
    (((runRateLimit store id limit windowMs (t1 :: ts)).1.map
        (fun r => r.success)).count true ≤ limit)
    ∧ (∀ i j : Nat, i < j →
        ((runRateLimit store id limit windowMs (t1 :: ts)).1.map
            (fun r => r.success)).get? i = some false →
        j < ((runRateLimit store id limit windowMs (t1 :: ts)).1.map
            (fun r => r.success)).length →
        ((runRateLimit store id limit windowMs (t1 :: ts)).1.map
            (fun r => r.success)).get? j = some false) := by
  have hfirst := checkRateLimit_fresh store id limit windowMs t1 hfresh
  have hstore2 : (storeSet store id
      (some { count := 1, resetAt := t1 + windowMs })) id
      = some { count := 1, resetAt := t1 + windowMs } := storeSet_self _ _ _
  obtain ⟨ihmap, _⟩ := runRateLimit_in_window ts
    (storeSet store id (some { count := 1, resetAt := t1 + windowMs }))
    id limit windowMs 1 (t1 + windowMs) hstore2 hts
  have hchar : (runRateLimit store id limit windowMs (t1 :: ts)).1.map (fun r => r.success)
      = (List.range (ts.length + 1)).map (fun i => decide (i + 1 ≤ limit)) := by
    show (checkRateLimit store id limit windowMs t1).1.success ::
        (runRateLimit (checkRateLimit store id limit windowMs t1).2 id limit windowMs ts).1.map
          (fun r => r.success) = _
    rw [hfirst]
    simp only []
    rw [ihmap]
    rw [List.range_succ_eq_map, List.map_cons, List.map_map]
    have hhead : decide (0 + 1 ≤ limit) = true := by
      simp
      omega
    rw [hhead]
    have htail : (List.range ts.length).map (fun i => decide (1 + i + 1 ≤ limit))
        = (List.range ts.length).map ((fun i => decide (i + 1 ≤ limit)) ∘ Nat.succ) :=
      List.map_congr_left (fun i _ => by
        show decide (1 + i + 1 ≤ limit) = decide (i.succ + 1 ≤ limit)
        exact decide_le_congr _ _ _ (by omega))
    rw [htail]
  rw [hchar]
  constructor
  · rw [count_true_range_decide]
    omega
  · intro i j hij hi hj
    rw [List.length_map, List.length_range] at hj
    have hi_lt : i < ts.length + 1 := by omega
    rw [List.get?_map, List.get?_range hi_lt] at hi
    rw [List.get?_map, List.get?_range hj]
    have hfalse : ¬ (i + 1 ≤ limit) := by
      intro hcon
      simp [hcon] at hi
    have hj1 : ¬ (j + 1 ≤ limit) := by omega
    simp [hj1]

/-- Witness for C10: three in-window calls under limit 2 from a fresh store
produce at most 2 successes. -/
theorem checkRateLimit_window_witness :
    emptyRateLimitStore "user" = none
    ∧ (1 : Nat) ≤ 2
    ∧ (((runRateLimit emptyRateLimitStore "user" 2 1000 [5, 6, 7]).1.map
        (fun r => r.success)).count true ≤ 2) :=
  ⟨rfl, by decide,
   (checkRateLimit_window emptyRateLimitStore "user" 2 1000 5 [6, 7] rfl (by decide)
      (by decide)).1⟩

/-! ### Claim C8: helper lemmas about splitOnNewline and joinLines -/

theorem splitOnNewline_ne_nil (s : Str) : splitOnNewline s ≠ [] := by
  induction s with
  | nil => simp [splitOnNewline]
  | cons c rest ih =>
    simp only [splitOnNewline]
    by_cases hc : c = '\n'
    · simp [hc]
    · simp only [if_neg hc]
      cases h : splitOnNewline rest with
      | nil => simp
      | cons l ls => simp

theorem splitOnNewline_no_newline (l : Str) (h : '\n' ∉ l) : splitOnNewline l = [l] := by
  induction l with
  | nil => rfl
  | cons c rest ih =>
    have hc : c ≠ '\n' := by
      intro hc
      exact h (by simp [hc])
    have hrest : '\n' ∉ rest := fun hr => h (by simp [hr])
    simp only [splitOnNewline, if_neg hc, ih hrest]

theorem splitOnNewline_append (l r : Str) (h : '\n' ∉ l) :
    splitOnNewline (l ++ '\n' :: r) = l :: splitOnNewline r := by
  induction l with
  | nil => simp [splitOnNewline]
  | cons c rest ih =>
    have hc : c ≠ '\n' := by
      intro hc
      exact h (by simp [hc])
    have hrest : '\n' ∉ rest := fun hr => h (by simp [hr])
    simp only [List.cons_append, splitOnNewline, if_neg hc, List.append_eq, ih hrest]

theorem splitOnNewline_joinLines (lines : List Str) (hne : lines ≠ [])
    (h : ∀ l ∈ lines, '\n' ∉ l) : splitOnNewline (joinLines lines) = lines := by
  induction lines with
  | nil => exact absurd rfl hne
  | cons l rest ih =>
    cases rest with
    | nil => exact splitOnNewline_no_newline l (h l (by simp))
    | cons l2 rest2 =>
      have hl : '\n' ∉ l := h l (by simp)
      show splitOnNewline (l ++ '\n' :: joinLines (l2 :: rest2)) = _
      rw [splitOnNewline_append _ _ hl]
      rw [ih (by simp) (fun x hx => h x (by simp [hx]))]

/-! ### Claim C8: helper lemmas about the section splitter state machine -/

theorem pushCurrent_currentSection (st : SplitState) :
    (pushCurrent st).currentSection = [] := by
  unfold pushCurrent
  by_cases h : st.currentSection.isEmpty
  · rw [if_pos h]
    exact List.isEmpty_iff.mp h
  · rw [if_neg h]

theorem pushCurrent_inCodeBlock (st : SplitState) :
    (pushCurrent st).inCodeBlock = st.inCodeBlock := by
  unfold pushCurrent
  by_cases h : st.currentSection.isEmpty
  · rw [if_pos h]
  · rw [if_neg h]

theorem processLine_fence_inCode (st : SplitState) (line : Str)
    (h : isFenceLine line = true) :
    (processLine st line).inCodeBlock = !st.inCodeBlock := by
  simp only [processLine, h, if_pos]
  cases hb : st.inCodeBlock <;> simp

theorem processLine_nonfence_inCode (st : SplitState) (line : Str)
    (h : isFenceLine line = false) :
    (processLine st line).inCodeBlock = st.inCodeBlock := by
  simp only [processLine, h]
  by_cases h1 : st.inCodeBlock
  · simp [h1]
  · simp only [Bool.false_eq_true, if_false, if_neg h1]
    split_ifs <;> rfl

theorem foldl_processLine_inCode (ls : List Str) (st : SplitState) :
    (ls.foldl processLine st).inCodeBlock
      = decide ((st.inCodeBlock.toNat + ls.countP (fun l => isFenceLine l)) % 2 = 1) := by
  induction ls generalizing st with
  | nil =>
    simp only [List.foldl_nil, List.countP_nil, Nat.add_zero]
    cases h : st.inCodeBlock <;> simp
  | cons l ls ih =>
    simp only [List.foldl_cons, List.countP_cons, ih]
    by_cases hf : isFenceLine l = true
    · rw [processLine_fence_inCode st l hf]
      rw [decide_eq_decide]
      cases hb : st.inCodeBlock <;> simp [hf] <;> first | rfl | omega
    · rw [processLine_nonfence_inCode st l (by simpa using hf)]
      rw [decide_eq_decide]
      simp only [hf]
      cases hb : st.inCodeBlock <;> simp

theorem pushCurrent_sections_extend (st : SplitState) :
    ∃ ext, (pushCurrent st).sections = st.sections ++ ext := by
  by_cases h : st.currentSection.isEmpty
  · exact ⟨[], by simp [pushCurrent, h]⟩
  · exact ⟨[st.currentSection], by simp [pushCurrent, h]⟩

theorem processLine_sections_extend (st : SplitState) (line : Str) :
    ∃ ext, (processLine st line).sections = st.sections ++ ext := by
  by_cases hf : isFenceLine line = true
  · obtain ⟨e, he⟩ := pushCurrent_sections_extend st
    by_cases hin : st.inCodeBlock
    · refine ⟨e ++ [(pushCurrent st).currentSection ++ line ++ ['\n']], ?_⟩
      simp only [processLine, hf, if_pos, hin, Bool.not_true, Bool.false_eq_true, if_false]
      rw [he, List.append_assoc]
    · refine ⟨e, ?_⟩
      simp only [processLine, hf, if_pos, hin, Bool.not_false, if_true]
      exact he
  · by_cases hin : st.inCodeBlock
    · exact ⟨[], by simp [processLine, hf, hin]⟩
    · by_cases hb : ((strTrim line).isEmpty || ['#'].isPrefixOf (strTrim line)) = true
      · by_cases hc : strTrim (st.currentSection ++ (line ++ ['\n'])) = []
        · exact ⟨[], by simp [processLine, hf, hin, hb, hc]⟩
        · exact ⟨[st.currentSection ++ (line ++ ['\n'])],
            by simp [processLine, hf, hin, hb, hc]⟩
      · exact ⟨[], by simp [processLine, hf, hin, hb]⟩

theorem foldl_processLine_sections_extend (ls : List Str) (st : SplitState) :
    ∃ ext, (ls.foldl processLine st).sections = st.sections ++ ext := by
  induction ls generalizing st with
  | nil => exact ⟨[], by simp⟩
  | cons l ls ih =>
    obtain ⟨e1, he1⟩ := processLine_sections_extend st l
    obtain ⟨e2, he2⟩ := ih (processLine st l)
    exact ⟨e1 ++ e2, by simp only [List.foldl_cons, he2, he1, List.append_assoc]⟩

theorem foldl_processLine_body (body : List Str) (st : SplitState)
    (hin : st.inCodeBlock = true) (hbody : ∀ l ∈ body, isFenceLine l = false) :
    body.foldl processLine st
      = { st with currentSection := st.currentSection ++ blockText body } := by
  induction body generalizing st with
  | nil => simp [blockText]
  | cons l body ih =>
    have hl : isFenceLine l = false := hbody l (by simp)
    have hstep : processLine st l
        = { st with currentSection := st.currentSection ++ (l ++ ['\n']) } := by
      simp only [processLine, hl, Bool.false_eq_true, if_false, hin, if_pos]
      simp [List.append_assoc]
    simp only [List.foldl_cons, hstep]
    rw [ih _ (by simp [hin]) (fun x hx => hbody x (by simp [hx]))]
    simp [blockText, List.append_assoc]

theorem processLine_open (st : SplitState) (line : Str)
    (hopen : isFenceLine line = true) (hst : st.inCodeBlock = false) :
    processLine st line
      = { sections := (pushCurrent st).sections, currentSection := line ++ ['\n']
          inCodeBlock := true } := by
  simp only [processLine, hopen, if_pos, hst]
  simp [pushCurrent_currentSection st]

theorem processLine_close (secs : List Str) (cur : Str) (line : Str)
    (hclose : isFenceLine line = true) (hcur : cur ≠ []) :
    processLine { sections := secs, currentSection := cur, inCodeBlock := true } line
      = { sections := secs ++ [cur] ++ [line ++ ['\n']], currentSection := []
          inCodeBlock := false } := by
  have hpush : pushCurrent { sections := secs, currentSection := cur, inCodeBlock := true }
      = { sections := secs ++ [cur], currentSection := [], inCodeBlock := true } := by
    unfold pushCurrent
    rw [if_neg (by simpa using hcur)]
  simp only [processLine, hclose, if_pos, hpush]
  simp

/-! ### Claim C8: helper lemmas about trimming and the skip predicate -/

theorem strRtrim_prefix_self (s : Str) : strRtrim s <+: s := by
  have h := List.dropWhile_suffix (l := s.reverse) Char.isWhitespace
  have h2 := List.reverse_prefix.mpr h
  simpa [strRtrim] using h2

theorem isFenceLine_ltrim (l : Str) (h : isFenceLine l = true) :
    ∃ t, strLtrim l = fenceMarker ++ t := by
  unfold isFenceLine strTrim at h
  rw [List.isPrefixOf_iff_prefix] at h
  have h2 : fenceMarker <+: strLtrim l := h.trans (strRtrim_prefix_self (strLtrim l))
  obtain ⟨t, ht⟩ := h2
  exact ⟨t, ht.symm⟩

theorem strLtrim_append_of_ne_nil (a b : Str) (h : strLtrim a ≠ []) :
    strLtrim (a ++ b) = strLtrim a ++ b := by
  unfold strLtrim at *
  rw [List.dropWhile_append, if_neg (by simpa [List.isEmpty_iff] using h)]

theorem isEmpty_reverse (l : Str) : l.reverse.isEmpty = l.isEmpty := by
  cases l with
  | nil => rfl
  | cons c rest =>
    have h1 : (c :: rest).reverse ≠ [] := by simp
    cases hr : (c :: rest).reverse.isEmpty
    · rfl
    · exact absurd (List.isEmpty_iff.mp hr) h1

theorem strRtrim_append (a b : Str) :
    strRtrim (a ++ b) = if (strRtrim b).isEmpty then strRtrim a else a ++ strRtrim b := by
  unfold strRtrim
  rw [List.reverse_append, List.dropWhile_append, isEmpty_reverse]
  by_cases h : (b.reverse.dropWhile Char.isWhitespace).isEmpty = true
  · rw [if_pos h, if_pos h]
  · rw [if_neg h, if_neg h]
    rw [List.reverse_append, List.reverse_reverse]

theorem strRtrim_fenceMarker : strRtrim fenceMarker = fenceMarker := rfl

theorem strTrim_fence_append (l y : Str) (h : isFenceLine l = true) :
    ∃ t, strTrim (l ++ y) = fenceMarker ++ t := by
  obtain ⟨t0, hlt⟩ := isFenceLine_ltrim l h
  have hne : strLtrim l ≠ [] := by
    rw [hlt]
    simp [fenceMarker]
  have h1 : strLtrim (l ++ y) = fenceMarker ++ (t0 ++ y) := by
    rw [strLtrim_append_of_ne_nil l y hne, hlt, List.append_assoc]
  unfold strTrim
  rw [h1, strRtrim_append]
  by_cases hz : (strRtrim (t0 ++ y)).isEmpty = true
  · rw [if_pos hz, strRtrim_fenceMarker]
    exact ⟨[], by simp⟩
  · rw [if_neg hz]
    exact ⟨strRtrim (t0 ++ y), rfl⟩

theorem shouldSkip_fence_append (l y : Str) (h : isFenceLine l = true) :
    shouldSkipTranslation (l ++ y) = true := by
  obtain ⟨t, ht⟩ := strTrim_fence_append l y h
  have hpre : fenceMarker.isPrefixOf (strTrim (l ++ y)) = true := by
    rw [ht, List.isPrefixOf_iff_prefix]
    exact List.prefix_append _ _
  unfold shouldSkipTranslation
  simp [hpre]

theorem blockText_cons (l : Str) (ls : List Str) :
    blockText (l :: ls) = (l ++ ['\n']) ++ blockText ls := by
  simp [blockText]

theorem blockText_append (a b : List Str) :
    blockText (a ++ b) = blockText a ++ blockText b := by
  simp [blockText]

theorem blockText_singleton (l : Str) : blockText [l] = l ++ ['\n'] := by
  simp [blockText]

theorem splitMarkdownSections_sections (md : Str) :
    ∃ ext, splitMarkdownSections md
      = ((splitOnNewline md).foldl processLine
          { sections := [], currentSection := [], inCodeBlock := false }).sections ++ ext := by
  unfold splitMarkdownSections
  by_cases h : (strTrim ((splitOnNewline md).foldl processLine
      { sections := [], currentSection := [], inCodeBlock := false
        }).currentSection).isEmpty = true
  · exact ⟨[], by simp [h]⟩
  · refine ⟨[((splitOnNewline md).foldl processLine
        { sections := [], currentSection := [], inCodeBlock := false }).currentSection], ?_⟩
    simp [h]

/-! ### Claim C8 -/

/-- C8: for every markdown document containing a well-formed fenced code
block on its own lines (an opening fence line, non-fence body lines, a
closing fence line, preceded by balanced fences) and every segment
translation function, translateMarkdown reproduces the code block (fence
lines and body, with their line terminators) byte-for-byte as a contiguous
substring of the output. -/
theorem translateMarkdown_code_block (translateText : Str → Str)
    (P body S : List Str) (openLine closeLine : Str)
    (hPn : ∀ l ∈ P, '\n' ∉ l) (hbn : ∀ l ∈ body, '\n' ∉ l)
    (hon : '\n' ∉ openLine) (hcn : '\n' ∉ closeLine) (hSn : ∀ l ∈ S, '\n' ∉ l)
    (hPbal : P.countP (fun l => isFenceLine l) % 2 = 0)
    (hopen : isFenceLine openLine = true) (hclose : isFenceLine closeLine = true)
    (hbody : ∀ l ∈ body, isFenceLine l = false) :
    blockText (openLine :: (body ++ [closeLine]))
      <:+: translateMarkdown translateText
            (joinLines (P ++ openLine :: (body ++ closeLine :: S))) := by
  have hne : P ++ openLine :: (body ++ closeLine :: S) ≠ [] := by simp
  have hN : ∀ l ∈ P ++ openLine :: (body ++ closeLine :: S), '\n' ∉ l := by
    intro l hl
    simp only [List.mem_append, List.mem_cons] at hl
    rcases hl with h | h | h | h | h
    · exact hPn l h
    · exact h ▸ hon
    · exact hbn l h
    · exact h ▸ hcn
    · exact hSn l h
  have hsplit : splitOnNewline (joinLines (P ++ openLine :: (body ++ closeLine :: S)))
      = P ++ openLine :: (body ++ closeLine :: S) :=
    splitOnNewline_joinLines _ hne hN
  have hPin : (P.foldl processLine
      { sections := [], currentSection := [], inCodeBlock := false }).inCodeBlock = false := by
    rw [foldl_processLine_inCode]
    simp only [Bool.toNat_false, Nat.zero_add]
    simp only [decide_eq_false_iff_not]
    omega
  have hO : processLine
      (P.foldl processLine { sections := [], currentSection := [], inCodeBlock := false })
      openLine
      = { sections := (pushCurrent (P.foldl processLine
            { sections := [], currentSection := [], inCodeBlock := false })).sections
          currentSection := openLine ++ ['\n'], inCodeBlock := true } :=
    processLine_open _ openLine hopen hPin
  have hB : body.foldl processLine (processLine
      (P.foldl processLine { sections := [], currentSection := [], inCodeBlock := false })
      openLine)
      = { sections := (pushCurrent (P.foldl processLine
            { sections := [], currentSection := [], inCodeBlock := false })).sections
          currentSection := (openLine ++ ['\n']) ++ blockText body
          inCodeBlock := true } := by
    rw [hO, foldl_processLine_body _ _ rfl hbody]
  have hcur_ne : (openLine ++ ['\n']) ++ blockText body ≠ [] := by simp
  have hC : processLine (body.foldl processLine (processLine
      (P.foldl processLine { sections := [], currentSection := [], inCodeBlock := false })
      openLine)) closeLine
      = { sections := (pushCurrent (P.foldl processLine
            { sections := [], currentSection := [], inCodeBlock := false })).sections
            ++ [(openLine ++ ['\n']) ++ blockText body] ++ [closeLine ++ ['\n']]
          currentSection := [], inCodeBlock := false } := by
    rw [hB]
    exact processLine_close _ _ closeLine hclose hcur_ne
  have hfold : (P ++ openLine :: (body ++ closeLine :: S)).foldl processLine
      { sections := [], currentSection := [], inCodeBlock := false }
      = S.foldl processLine (processLine (body.foldl processLine (processLine
          (P.foldl processLine { sections := [], currentSection := [], inCodeBlock := false })
          openLine)) closeLine) := by
    rw [List.foldl_append, List.foldl_cons, List.foldl_append, List.foldl_cons]
  obtain ⟨ext, hext⟩ := foldl_processLine_sections_extend S
    (processLine (body.foldl processLine (processLine
      (P.foldl processLine { sections := [], currentSection := [], inCodeBlock := false })
      openLine)) closeLine)
  obtain ⟨ext2, hsec⟩ :=
    splitMarkdownSections_sections (joinLines (P ++ openLine :: (body ++ closeLine :: S)))
  rw [hsplit, hfold, hext, hC] at hsec
  have hskip1 : shouldSkipTranslation ((openLine ++ ['\n']) ++ blockText body) = true := by
    rw [List.append_assoc]
    exact shouldSkip_fence_append _ _ hopen
  have hskip2 : shouldSkipTranslation (closeLine ++ ['\n']) = true :=
    shouldSkip_fence_append _ _ hclose
  have hblock : blockText (openLine :: (body ++ [closeLine]))
      = ((openLine ++ ['\n']) ++ blockText body) ++ (closeLine ++ ['\n']) := by
    rw [blockText_cons, blockText_append, blockText_singleton]
    simp [List.append_assoc]
  refine ⟨(((pushCurrent (P.foldl processLine
      { sections := [], currentSection := [], inCodeBlock := false })).sections).map
        (fun s => if shouldSkipTranslation s then s else translateText s)).flatten,
    (((ext ++ ext2).map
        (fun s => if shouldSkipTranslation s then s else translateText s)).flatten), ?_⟩
  unfold translateMarkdown
  rw [hsec, hblock]
  simp only [List.append_assoc, List.map_append, List.map_cons, List.map_nil,
    List.flatten_append, List.flatten_cons, List.flatten_nil, hskip1, hskip2, if_true,
    List.append_nil]
  have hskip1c : shouldSkipTranslation (openLine ++ '\n' :: blockText body) = true := by
    simpa [List.append_assoc] using hskip1
  simp [List.append_assoc, List.map_append, List.flatten_append, hskip1c, hskip2]

/-- Witness for C8 at a concrete document: a fenced js code block between
prose paragraphs survives byte-for-byte under a translator that rewrites
every segment to "X". -/
theorem translateMarkdown_code_block_witness :
    blockText (("```js".toList) :: ([("code".toList)] ++ [("```".toList)]))
      <:+: translateMarkdown (fun _ => ("X".toList))
            (joinLines ([("hello".toList), ("".toList)] ++ ("```js".toList) ::
              ([("code".toList)] ++ ("```".toList) :: [("".toList), ("world".toList)]))) :=
  translateMarkdown_code_block (fun _ => ("X".toList))
    [("hello".toList), ("".toList)] [("code".toList)] [("".toList), ("world".toList)]
    ("```js".toList) ("```".toList)
    (by decide) (by decide) (by decide) (by decide) (by decide)
    (by decide) (by decide) (by decide) (by decide)
